import Mathlib

/-!
# Game of Life arena (`gameoflife.cpp`)

A shallow embedding of the simulation core of `gameoflife.cpp`: the linear
congruential generator `my_rand`, the `Arena` class with its two cell buffers,
the toroidal neighbour count, the sequential and the multi-worker generation
step, and the run-length verifier `check`.

Conventions of the embedding:

* `unsigned` and `uint32_t` are 32 bits wide; a value of either type is a `Nat`
  and every operation that can leave the range is reduced with `u32`.
* a `std::vector<uint8_t>` is a `List Nat`; the program only ever stores 0 or 1.
* `assert` and `vector::at` failures, and reads the C++ standard leaves
  undefined (dereferencing `begin()` of an empty vector, reading past the end of
  the reference table), are the `none` result of an `Option`.
* the `int` locals of `check()` are exact integers: `count` never exceeds the
  number of cells, and a run of 2^31 equal cells, whose count C++ leaves
  undefined, is outside the embedding.
* the worker threads of `updateMT` are run one after the other in spawn order.
-/

namespace GameOfLife

/-- Reduction of a natural number to the range of a 32-bit `unsigned`. -/
def u32 (n : Nat) : Nat := n % 4294967296

/-- The function `my_rand` (lines 17-22) with its `static uint32_t state` made
explicit: from the old state it gives the returned value `state >> 23` and the
new state `22695477u * state + 1u`. -/
def my_rand (state : Nat) : Nat × Nat :=
  let s := u32 (22695477 * state + 1)
  (s >>> 23, s)

/-- The class `Arena` (lines 172-173): `w_`, `h_`, `image_` (the current
generation) and `next_` (the scratch buffer). -/
structure Arena where
  w_ : Nat
  h_ : Nat
  image_ : List Nat
  next_ : List Nat
deriving DecidableEq, Repr

/-- The initialisation loop of the constructor (lines 43-45): `n` cells are
assigned `my_rand() & 1` in iteration order, threading the generator state. -/
def seedCells : Nat → Nat → List Nat × Nat
  | 0, state => ([], state)
  | n + 1, state =>
    let r := my_rand state
    let rest := seedCells n r.2
    ((r.1 &&& 1) :: rest.1, rest.2)

/-- The constructor `Arena(width, height)` (lines 37-46), run with the generator
in state `state`: both vectors get `width * height` cells (an `unsigned`
product), `next_` is zero-initialised and `image_` is seeded. The new generator
state is returned with the object. -/
def Arena.new (width height state : Nat) : Arena × Nat :=
  let cells := seedCells (u32 (width * height)) state
  (⟨width, height, cells.1, List.replicate (u32 (width * height)) 0⟩, cells.2)

/-- The accessor `at(x, y)` (lines 72-78): both assertions, then the checked
read `image_.at(w_ * y + x)`. -/
def Arena.at (a : Arena) (x y : Nat) : Option Nat :=
  if x < a.w_ ∧ y < a.h_ then a.image_[u32 (a.w_ * y + x)]? else none

/-- The accessor `atNext(x, y)` (lines 80-86) used as the target of an
assignment: both assertions, the checked access `next_.at(w_ * y + x)`, then
the store of `v`. -/
def Arena.atNext (a : Arena) (x y v : Nat) : Option Arena :=
  if x < a.w_ ∧ y < a.h_ ∧ u32 (a.w_ * y + x) < a.next_.length then
    some { a with next_ := a.next_.set (u32 (a.w_ * y + x)) v }
  else none

/-- The method `countNeighs(x, y)` (lines 88-96). The four wrapped coordinates
are computed in `unsigned` arithmetic (`x + w_ - 1` is an addition and a
subtraction modulo 2^32, a remainder by zero has no result), and the eight
cells read through `at` are added (as `int`, eight `uint8_t` values cannot
overflow it). -/
def Arena.countNeighs (a : Arena) (x y : Nat) : Option Nat :=
  if a.w_ = 0 ∨ a.h_ = 0 then none else do
    let x1 := u32 (u32 (x + a.w_) + 4294967295) % a.w_
    let y1 := u32 (u32 (y + a.h_) + 4294967295) % a.h_
    let x2 := u32 (x + 1) % a.w_
    let y2 := u32 (y + 1) % a.h_
    let n1 ← a.at x1 y1
    let n2 ← a.at x y1
    let n3 ← a.at x2 y1
    let n4 ← a.at x1 y
    let n5 ← a.at x2 y
    let n6 ← a.at x1 y2
    let n7 ← a.at x y2
    let n8 ← a.at x2 y2
    pure (n1 + n2 + n3 + n4 + n5 + n6 + n7 + n8)

/-- The rule applied to one cell, lines 105-111 (and again 137-143): the final
value of the local `live`, from its initial value and `neighCount`. -/
def nextLive (live : Bool) (neighCount : Nat) : Bool :=
  if live then
    if neighCount < 2 ∨ neighCount > 3 then false else live
  else if neighCount = 3 then true
  else live

/-- The body of the inner loop, lines 103-112 (and again 135-144):
`bool live = at(x, y)`, the neighbour count, the rule, and the store
`atNext(x, y) = live`. -/
def Arena.cellStep (a : Arena) (x y : Nat) : Option Arena := do
  let c ← a.at x y
  let neighCount ← a.countNeighs x y
  a.atNext x y (if nextLive (c != 0) neighCount then 1 else 0)

/-- The method `updateThread(fromX, toX)` (lines 98-115): rows `0 .. h_-1`
outside, columns `fromX .. toX-1` inside. The `int` parameters are converted
back to `unsigned` before use, so they are taken as the `unsigned` values. -/
def Arena.updateThread (a : Arena) (fromX toX : Nat) : Option Arena :=
  (List.range a.h_).foldlM
    (fun s y => (List.range' fromX (toX - fromX)).foldlM (fun s x => s.cellStep x y) s) a

/-- The exchange `image_.swap(next_)`. -/
def Arena.swap (a : Arena) : Arena :=
  { a with image_ := a.next_, next_ := a.image_ }

/-- The method `updateMT()` (lines 117-128) for a worker count `cores_`: worker
`i` runs `updateThread(i*(w_/cores_), (i+1)*(w_/cores_))`, the workers are
joined, and the buffers are exchanged. With `cores_ = 0` the loop body, and so
the division, is never reached. -/
def Arena.updateMT (cores_ : Nat) (a : Arena) : Option Arena := do
  let s ← (List.range cores_).foldlM
    (fun s i => s.updateThread (u32 (i * (a.w_ / cores_))) (u32 ((i + 1) * (a.w_ / cores_)))) a
  pure s.swap

/-- The method `update()` (lines 130-148): the same loop body over every row
and every column, then the exchange of the buffers. -/
def Arena.update (a : Arena) : Option Arena := do
  let s ← (List.range a.h_).foldlM
    (fun s y => (List.range s.w_).foldlM (fun s x => s.cellStep x y) s) a
  pure s.swap

/-- A grid: both buffers hold exactly `w_ * h_` cells, and that product is the
one the constructor computes in `unsigned` arithmetic (it is below 2^32). -/
def Arena.IsGrid (a : Arena) : Prop :=
  a.image_.length = a.w_ * a.h_ ∧ a.next_.length = a.w_ * a.h_ ∧ a.w_ * a.h_ < 4294967296 ∧
    a.w_ < 4294967296 ∧ a.h_ < 4294967296

/-- Every cell of a buffer is 0 or 1. -/
def Binary (cells : List Nat) : Prop := ∀ v ∈ cells, v = 0 ∨ v = 1

/-- The cell of the current generation at `(x, y)`, read without checks. -/
def Arena.pix (a : Arena) (x y : Nat) : Nat := a.image_.getD (a.w_ * y + x) 0

/-- The value the loop body stores for the cell `(x, y)`: the rule applied to
`at(x, y)` and `countNeighs(x, y)`, as 0 or 1. -/
def Arena.cellNew (a : Arena) (x y : Nat) : Option Nat := do
  let c ← a.at x y
  let neighCount ← a.countNeighs x y
  pure (if nextLive (c != 0) neighCount then 1 else 0)

/-- The rule B3/S23 as the specification words it: a live cell stays live with
2 or 3 live neighbours, a dead cell becomes live with exactly 3. -/
def B3S23 (alive : Bool) (liveNeighbors : Nat) : Bool :=
  if alive then decide (liveNeighbors = 2 ∨ liveNeighbors = 3) else decide (liveNeighbors = 3)

/-- The toroidal live-neighbour count as the specification words it: the sum
of `current` over the pairs `(x', y')` with `x'` among `(x+W-1) mod W`, `x`,
`(x+1) mod W` and `y'` among `(y+H-1) mod H`, `y`, `(y+1) mod H`, without the
middle pair `(x, y)`; pairs that coincide are counted each time they occur. -/
def toroidalCount (current : List Nat) (W H x y : Nat) : Nat :=
  let xs := [(x + W - 1) % W, x, (x + 1) % W]
  let ys := [(y + H - 1) % H, y, (y + 1) % H]
  let pairs := (ys.flatMap fun y' => xs.map fun x' => (x', y')).eraseIdx 4
  (pairs.map fun p => current.getD (p.2 * W + p.1) 0).sum

/-- The effect of a sequence of cell stores: dimensions and `image_` are kept,
`next_` keeps its length, the cells selected by `P` hold their new value and
the others are untouched. -/
def Wrote (P : Nat → Nat → Prop) (a a' : Arena) : Prop :=
  a'.w_ = a.w_ ∧ a'.h_ = a.h_ ∧ a'.image_ = a.image_ ∧ a'.next_.length = a.next_.length ∧
  ∀ x y, x < a.w_ → y < a.h_ →
    (P x y → a'.next_[a.w_ * y + x]? = a.cellNew x y) ∧
    (¬ P x y → a'.next_[a.w_ * y + x]? = a.next_[a.w_ * y + x]?)

instance (a : Arena) : Decidable a.IsGrid := by
  unfold Arena.IsGrid
  infer_instance

instance (cells : List Nat) : Decidable (Binary cells) := by
  unfold Binary
  infer_instance

/-- A one-row grid of `n + 1` cells whose only live cell is cell 0, with a
zeroed scratch buffer. -/
def oneRow (n : Nat) : Arena :=
  ⟨n + 1, 1, 1 :: List.replicate n 0, List.replicate (n + 1) 0⟩

/-- The one-row grid of 2^31 + 1 cells whose only live cell is cell 0. -/
def wideRow : Arena := oneRow 2147483648

/-- A 3 x 3 grid holding a vertical bar in its middle column, with a scratch
buffer full of ones. -/
def bar3 : Arena :=
  ⟨3, 3, [0, 1, 0, 0, 1, 0, 0, 1, 0], [1, 1, 1, 1, 1, 1, 1, 1, 1]⟩

/-- The grid `bar3` with a zeroed scratch buffer. -/
def bar3z : Arena :=
  ⟨3, 3, [0, 1, 0, 0, 1, 0, 0, 1, 0], [0, 0, 0, 0, 0, 0, 0, 0, 0]⟩

/-- The 3 x 3 arena built first in a process (generator state 0). -/
def seeded3 : Arena := (Arena.new 3 3 0).1

/-- The 4 x 4 arena built first in a process (generator state 0). -/
def seeded4 : Arena := (Arena.new 4 4 0).1

/-- The driving loop of `main` (lines 195-198) without display and events:
`n` calls of `updateMT()` with worker count `cores_`. -/
def Arena.generations (cores_ : Nat) : Nat → Arena → Option Arena
  | 0, a => some a
  | n + 1, a => (a.updateMT cores_).bind (Arena.generations cores_ n)

/-- The generator states as the specification words them: `s_0 = 0` and
`s_(n+1) = (22695477 * s_n + 1) mod 2^32`. -/
def lcg : Nat → Nat
  | 0 => 0
  | n + 1 => (22695477 * lcg n + 1) % 2 ^ 32

/-- The grid invariant of the specification for dimensions `W` and `H`: the
dimensions are `W` and `H`, both buffers hold `W * H` cells, and every cell of
both buffers is 0 or 1. -/
def Arena.Inv (a : Arena) (W H : Nat) : Prop :=
  a.w_ = W ∧ a.h_ = H ∧ a.image_.length = W * H ∧ a.next_.length = W * H ∧
    Binary a.image_ ∧ Binary a.next_

instance (a : Arena) (W H : Nat) : Decidable (a.Inv W H) := by
  unfold Arena.Inv
  infer_instance

/-- The eight coordinate pairs `countNeighs(x, y)` passes to `at` (lines 91-95),
in the order of the sum, computed as the code computes them. -/
def Arena.neighCoords (a : Arena) (x y : Nat) : List (Nat × Nat) :=
  let x1 := u32 (u32 (x + a.w_) + 4294967295) % a.w_
  let y1 := u32 (u32 (y + a.h_) + 4294967295) % a.h_
  let x2 := u32 (x + 1) % a.w_
  let y2 := u32 (y + 1) % a.h_
  [(x1, y1), (x, y1), (x2, y1), (x1, y), (x2, y), (x1, y2), (x, y2), (x2, y2)]

/-- The state of `a` shows a pattern: the current buffer has exactly the cells
of `cells` alive (1) and all the others dead (0). -/
def Arena.Alive (a : Arena) (cells : List (Nat × Nat)) : Prop :=
  ∀ x, x < a.w_ → ∀ y, y < a.h_ →
    a.image_[y * a.w_ + x]? = some (if (x, y) ∈ cells then 1 else 0)

instance (a : Arena) (cells : List (Nat × Nat)) : Decidable (a.Alive cells) := by
  unfold Arena.Alive
  infer_instance

/-- A driving loop that uses the sequential step: `n` calls of `update()`. -/
def Arena.updates : Nat → Arena → Option Arena
  | 0, a => some a
  | n + 1, a => a.update.bind (Arena.updates n)

/-- Membership of a coordinate in the span `lo .. hi`, as 0 or 1. -/
def inSpan (lo hi x : Nat) : Nat := if lo ≤ x ∧ x ≤ hi then 1 else 0

/-- The number of the three coordinates `(x+W-1) mod W`, `x`, `(x+1) mod W`
that lie in the span `lo .. hi`. -/
def spanNear (W lo hi x : Nat) : Nat :=
  inSpan lo hi ((x + W - 1) % W) + inSpan lo hi x + inSpan lo hi ((x + 1) % W)

/-- A 4 x 4 grid with the block at `(1, 1)`. -/
def block4 : Arena :=
  ⟨4, 4, [0, 0, 0, 0, 0, 1, 1, 0, 0, 1, 1, 0, 0, 0, 0, 0],
    [0, 0, 0, 0, 0, 0, 0, 0, 0, 0, 0, 0, 0, 0, 0, 0]⟩

/-- A 5 x 5 grid with the horizontal blinker centred at `(2, 2)`. -/
def blinker5 : Arena :=
  ⟨5, 5, [0, 0, 0, 0, 0, 0, 0, 0, 0, 0, 0, 1, 1, 1, 0, 0, 0, 0, 0, 0, 0, 0, 0, 0, 0],
    List.replicate 25 0⟩

/-- A 3 x 3 grid whose only live cell is `(0, 0)`. -/
def corner3 : Arena :=
  ⟨3, 3, [1, 0, 0, 0, 0, 0, 0, 0, 0], [0, 0, 0, 0, 0, 0, 0, 0, 0]⟩

theorem u32_of_lt {n : Nat} (h : n < 4294967296) : u32 n = n := Nat.mod_eq_of_lt h

theorem idx_lt {W H x y : Nat} (hx : x < W) (hy : y < H) : W * y + x < W * H := by
  calc W * y + x < W * y + W := by omega
    _ = W * (y + 1) := by ring
    _ ≤ W * H := Nat.mul_le_mul_left W hy

theorem idx_inj {W x y x' y' : Nat} (hx : x < W) (hx' : x' < W)
    (h : W * y + x = W * y' + x') : x = x' ∧ y = y' := by
  have h1 : (W * y + x) % W = (W * y' + x') % W := by rw [h]
  have h2 : (W * y + x) / W = (W * y' + x') / W := by rw [h]
  rw [Nat.mul_add_mod, Nat.mul_add_mod, Nat.mod_eq_of_lt hx, Nat.mod_eq_of_lt hx'] at h1
  have hW : 0 < W := by omega
  rw [Nat.mul_add_div hW, Nat.mul_add_div hW, Nat.div_eq_of_lt hx, Nat.div_eq_of_lt hx'] at h2
  exact ⟨h1, by omega⟩

theorem Arena.IsGrid.idx_u32 {a : Arena} (hg : a.IsGrid) {x y : Nat} (hx : x < a.w_)
    (hy : y < a.h_) : u32 (a.w_ * y + x) = a.w_ * y + x :=
  u32_of_lt (lt_trans (idx_lt hx hy) hg.2.2.1)

theorem Arena.IsGrid.at_eq {a : Arena} (hg : a.IsGrid) {x y : Nat} (hx : x < a.w_)
    (hy : y < a.h_) : a.at x y = some (a.pix x y) := by
  have hi : a.w_ * y + x < a.image_.length := by rw [hg.1]; exact idx_lt hx hy
  simp [Arena.at, Arena.pix, hx, hy, hg.idx_u32 hx hy, List.getD_eq_getElem?_getD,
    List.getElem?_eq_getElem hi]

theorem Arena.IsGrid.image_get {a : Arena} (hg : a.IsGrid) {x y : Nat} (hx : x < a.w_)
    (hy : y < a.h_) : a.image_[a.w_ * y + x]? = some (a.pix x y) := by
  have hi : a.w_ * y + x < a.image_.length := by rw [hg.1]; exact idx_lt hx hy
  simp [Arena.pix, List.getD_eq_getElem?_getD, List.getElem?_eq_getElem hi]

/-- In a grid `countNeighs` succeeds on every cell, with the sum of the eight
cells at the coordinates the code computes. -/
theorem Arena.IsGrid.countNeighs_eq {a : Arena} (hg : a.IsGrid) {x y : Nat} (hx : x < a.w_)
    (hy : y < a.h_) :
    a.countNeighs x y = some
      (a.pix (u32 (u32 (x + a.w_) + 4294967295) % a.w_) (u32 (u32 (y + a.h_) + 4294967295) % a.h_)
      + a.pix x (u32 (u32 (y + a.h_) + 4294967295) % a.h_)
      + a.pix (u32 (x + 1) % a.w_) (u32 (u32 (y + a.h_) + 4294967295) % a.h_)
      + a.pix (u32 (u32 (x + a.w_) + 4294967295) % a.w_) y
      + a.pix (u32 (x + 1) % a.w_) y
      + a.pix (u32 (u32 (x + a.w_) + 4294967295) % a.w_) (u32 (y + 1) % a.h_)
      + a.pix x (u32 (y + 1) % a.h_)
      + a.pix (u32 (x + 1) % a.w_) (u32 (y + 1) % a.h_)) := by
  have hW : 0 < a.w_ := by omega
  have hH : 0 < a.h_ := by omega
  have hW0 : ¬ (a.w_ = 0 ∨ a.h_ = 0) := by omega
  unfold Arena.countNeighs
  rw [if_neg hW0]
  simp only [hg.at_eq (Nat.mod_lt _ hW) (Nat.mod_lt _ hH), hg.at_eq hx (Nat.mod_lt _ hH),
    hg.at_eq (Nat.mod_lt _ hW) hy, hg.at_eq hx hy]
  rfl

theorem Arena.IsGrid.cellNew_eq {a : Arena} (hg : a.IsGrid) {x y : Nat} (hx : x < a.w_)
    (hy : y < a.h_) : ∃ n, a.countNeighs x y = some n ∧
      a.cellNew x y = some (if nextLive (a.pix x y != 0) n then 1 else 0) := by
  refine ⟨_, hg.countNeighs_eq hx hy, ?_⟩
  unfold Arena.cellNew
  rw [hg.at_eq hx hy, hg.countNeighs_eq hx hy]
  rfl

theorem cellNew_congr {a b : Arena} (hw : b.w_ = a.w_) (hh : b.h_ = a.h_)
    (hi : b.image_ = a.image_) (x y : Nat) : b.cellNew x y = a.cellNew x y := by
  simp [Arena.cellNew, Arena.at, Arena.countNeighs, hw, hh, hi]

/-! ## The effect of the loops -/

theorem Wrote.isGrid {P : Nat → Nat → Prop} {a a' : Arena} (h : Wrote P a a')
    (hg : a.IsGrid) : a'.IsGrid := by
  obtain ⟨hw, hh, hi, hl, -⟩ := h
  unfold Arena.IsGrid
  rw [hw, hh, hi, hl]
  exact hg

theorem Wrote.none (a : Arena) : Wrote (fun _ _ => False) a a :=
  ⟨rfl, rfl, rfl, rfl, fun _ _ _ _ => ⟨fun h => h.elim, fun _ => rfl⟩⟩

theorem Wrote.trans {P Q : Nat → Nat → Prop} {a b c : Arena} (h1 : Wrote P a b)
    (h2 : Wrote Q b c) : Wrote (fun x y => P x y ∨ Q x y) a c := by
  obtain ⟨hw, hh, hi, hl, hc⟩ := h1
  obtain ⟨hw2, hh2, hi2, hl2, hc2⟩ := h2
  refine ⟨hw2.trans hw, hh2.trans hh, hi2.trans hi, hl2.trans hl, ?_⟩
  intro x y hx hy
  have e1 := hc x y hx hy
  have e2 := hc2 x y (hw ▸ hx) (hh ▸ hy)
  rw [hw, cellNew_congr hw hh hi] at e2
  by_cases hq : Q x y
  · exact ⟨fun _ => e2.1 hq, fun hn => (hn (Or.inr hq)).elim⟩
  · refine ⟨fun hpq => ?_, fun hn => ?_⟩
    · rw [e2.2 hq]
      exact e1.1 (hpq.resolve_right hq)
    · rw [e2.2 hq]
      exact e1.2 (fun hp => hn (Or.inl hp))

theorem Wrote.mono {P Q : Nat → Nat → Prop} {a a' : Arena} (h : Wrote P a a')
    (hpq : ∀ x y, x < a.w_ → y < a.h_ → (P x y ↔ Q x y)) : Wrote Q a a' := by
  obtain ⟨hw, hh, hi, hl, hc⟩ := h
  refine ⟨hw, hh, hi, hl, fun x y hx hy => ?_⟩
  rw [← hpq x y hx hy]
  exact hc x y hx hy

/-- One run of the loop body on a grid stores the new value of exactly that
cell. -/
theorem Arena.IsGrid.cellStep_wrote {a : Arena} (hg : a.IsGrid) {x y : Nat} (hx : x < a.w_)
    (hy : y < a.h_) :
    ∃ a', a.cellStep x y = some a' ∧ Wrote (fun x' y' => x' = x ∧ y' = y) a a' := by
  obtain ⟨n, hn, hv⟩ := hg.cellNew_eq hx hy
  have hi : a.w_ * y + x < a.next_.length := by rw [hg.2.1]; exact idx_lt hx hy
  refine ⟨⟨a.w_, a.h_, a.image_, List.set a.next_ (a.w_ * y + x)
      (if nextLive (a.pix x y != 0) n then 1 else 0)⟩, ?_, rfl, rfl, rfl, by simp, ?_⟩
  · simp [Arena.cellStep, hg.at_eq hx hy, hn, Arena.atNext, hx, hy, hg.idx_u32 hx hy, hi]
  · intro x' y' hx' hy'
    constructor
    · rintro ⟨rfl, rfl⟩
      rw [hv]
      simp [List.getElem?_set, hi]
    · intro hne
      have hidx : a.w_ * y + x ≠ a.w_ * y' + x' := by
        intro h
        obtain ⟨h1, h2⟩ := idx_inj hx hx' h
        exact hne ⟨h1.symm, h2.symm⟩
      simp [List.getElem?_set, hidx]

/-- A loop over `l` whose body, on any grid of the same dimensions, stores the
cells selected by `P e`, stores in all the cells selected for some `e ∈ l`. -/
theorem foldlM_wrote {α : Type} (f : Arena → α → Option Arena) (P : α → Nat → Nat → Prop)
    (W H : Nat) : ∀ (l : List α) (a : Arena), a.IsGrid → a.w_ = W → a.h_ = H →
      (∀ e ∈ l, ∀ s : Arena, s.IsGrid → s.w_ = W → s.h_ = H →
        ∃ s', f s e = some s' ∧ Wrote (P e) s s') →
      ∃ a', l.foldlM f a = some a' ∧ Wrote (fun x y => ∃ e ∈ l, P e x y) a a' := by
  intro l
  induction l with
  | nil =>
    intro a _ _ _ _
    exact ⟨a, rfl, (Wrote.none a).mono (by simp)⟩
  | cons e l ih =>
    intro a hg hw hh hf
    obtain ⟨s, hs, hws⟩ := hf e (List.mem_cons_self e l) a hg hw hh
    obtain ⟨a', ha', hwa'⟩ := ih s (hws.isGrid hg) (hws.1.trans hw) (hws.2.1.trans hh)
      (fun e' he' => hf e' (List.mem_cons_of_mem e he'))
    refine ⟨a', ?_, (hws.trans hwa').mono (by simp)⟩
    rw [List.foldlM_cons, hs]
    exact ha'

/-- The inner loop over the columns `fromX .. toX-1` of row `y`. -/
theorem Arena.IsGrid.row_wrote {a : Arena} (hg : a.IsGrid) {fromX toX y : Nat}
    (hto : toX ≤ a.w_) (hy : y < a.h_) :
    ∃ a', (List.range' fromX (toX - fromX)).foldlM (fun s x => s.cellStep x y) a = some a' ∧
      Wrote (fun x' y' => (fromX ≤ x' ∧ x' < toX) ∧ y' = y) a a' := by
  obtain ⟨a', ha', hw⟩ := foldlM_wrote (fun s x => s.cellStep x y)
    (fun x x' y' => x' = x ∧ y' = y) a.w_ a.h_ (List.range' fromX (toX - fromX)) a hg rfl rfl
    (by
      intro x hx s hs hsw hsh
      have hxlt : x < s.w_ := by
        rw [List.mem_range'_1] at hx
        omega
      exact hs.cellStep_wrote hxlt (hsh ▸ hy))
  refine ⟨a', ha', hw.mono ?_⟩
  intro x' y' _ _
  simp only [List.mem_range'_1]
  constructor
  · rintro ⟨x, hx, rfl, rfl⟩
    exact ⟨by omega, rfl⟩
  · rintro ⟨hx, rfl⟩
    exact ⟨x', by omega, rfl, rfl⟩

/-- On a grid `updateThread(fromX, toX)` with `toX ≤ w_` succeeds and stores
the new value of every cell of the columns `fromX .. toX-1`, nothing else. -/
theorem Arena.IsGrid.updateThread_wrote {a : Arena} (hg : a.IsGrid) {fromX toX : Nat}
    (hto : toX ≤ a.w_) :
    ∃ a', a.updateThread fromX toX = some a' ∧
      Wrote (fun x' _ => fromX ≤ x' ∧ x' < toX) a a' := by
  obtain ⟨a', ha', hw⟩ := foldlM_wrote
    (fun s y => (List.range' fromX (toX - fromX)).foldlM (fun s x => s.cellStep x y) s)
    (fun y x' y' => (fromX ≤ x' ∧ x' < toX) ∧ y' = y) a.w_ a.h_ (List.range a.h_) a hg rfl rfl
    (by
      intro y hy s hs hsw hsh
      rw [List.mem_range] at hy
      exact hs.row_wrote (hsw ▸ hto) (hsh ▸ hy))
  refine ⟨a', ha', hw.mono ?_⟩
  intro x' y' _ hy'
  simp only [List.mem_range]
  constructor
  · rintro ⟨y, _, hx, _⟩
    exact hx
  · intro hx
    exact ⟨y', hy', hx, rfl⟩

/-- The double loop of `update()` on a grid succeeds and stores the new value
of every cell. -/
theorem Arena.IsGrid.update_wrote {a : Arena} (hg : a.IsGrid) :
    ∃ s, a.update = some s.swap ∧ Wrote (fun _ _ => True) a s := by
  obtain ⟨s, hs, hw⟩ := foldlM_wrote
    (fun s y => (List.range s.w_).foldlM (fun s x => s.cellStep x y) s)
    (fun y x' y' => (0 ≤ x' ∧ x' < a.w_) ∧ y' = y) a.w_ a.h_ (List.range a.h_) a hg rfl rfl
    (by
      intro y hy s hs hsw hsh
      rw [List.mem_range] at hy
      have h := @Arena.IsGrid.row_wrote s hs 0 s.w_ y (le_refl s.w_) (hsh ▸ hy)
      rw [Nat.sub_zero, ← List.range_eq_range'] at h
      beta_reduce
      rw [hsw] at h ⊢
      exact h)
  refine ⟨s, ?_, hw.mono ?_⟩
  · simp only [Arena.update, hs]
    rfl
  · intro x' y' hx' hy'
    simp only [List.mem_range]
    exact ⟨fun _ => trivial, fun _ => ⟨y', hy', ⟨Nat.zero_le _, hx'⟩, rfl⟩⟩

theorem slice_cover {T q x : Nat} :
    (∃ i ∈ List.range T, i * q ≤ x ∧ x < (i + 1) * q) ↔ x < T * q := by
  simp only [List.mem_range]
  constructor
  · rintro ⟨i, hi, -, h2⟩
    exact lt_of_lt_of_le h2 (Nat.mul_le_mul_right q hi)
  · intro h
    have hq : 0 < q := by
      rcases Nat.eq_zero_or_pos q with h0 | h0
      · rw [h0] at h
        simp at h
      · exact h0
    refine ⟨x / q, (Nat.div_lt_iff_lt_mul hq).2 h, Nat.div_mul_le_self x q, ?_⟩
    rw [Nat.add_mul, Nat.one_mul]
    exact Nat.lt_div_mul_add hq

/-- The workers of `updateMT` on a grid all succeed, and together they store
the new value of every cell of the columns below `cores_ * (w_ / cores_)`,
nothing else. -/
theorem Arena.IsGrid.updateMT_wrote {a : Arena} (hg : a.IsGrid) (T : Nat) :
    ∃ s, a.updateMT T = some s.swap ∧ Wrote (fun x' _ => x' < T * (a.w_ / T)) a s := by
  have hle : ∀ i, i < T → (i + 1) * (a.w_ / T) ≤ a.w_ := fun i hi =>
    le_trans (Nat.mul_le_mul_right _ hi) (Nat.mul_div_le a.w_ T)
  obtain ⟨s, hs, hw⟩ := foldlM_wrote
    (fun s i => s.updateThread (u32 (i * (a.w_ / T))) (u32 ((i + 1) * (a.w_ / T))))
    (fun i x' _ => i * (a.w_ / T) ≤ x' ∧ x' < (i + 1) * (a.w_ / T)) a.w_ a.h_ (List.range T) a
    hg rfl rfl
    (by
      intro i hi s hs hsw hsh
      rw [List.mem_range] at hi
      have h1 := hle i hi
      have h2 : i * (a.w_ / T) ≤ (i + 1) * (a.w_ / T) := Nat.mul_le_mul_right _ (Nat.le_succ i)
      beta_reduce
      rw [u32_of_lt (lt_of_le_of_lt (le_trans h2 h1) hg.2.2.2.1),
        u32_of_lt (lt_of_le_of_lt h1 hg.2.2.2.1)]
      exact hs.updateThread_wrote (hsw ▸ h1))
  refine ⟨s, ?_, hw.mono fun x' _ _ _ => slice_cover⟩
  simp only [Arena.updateMT, hs]
  rfl

/-! ## The neighbour count against its specification -/

theorem nextLive_eq_B3S23 (live : Bool) (n : Nat) : nextLive live n = B3S23 live n := by
  unfold nextLive B3S23
  cases live
  · simp
  · rw [Bool.eq_iff_iff]
    simp
    omega

theorem Binary.getD_le {cells : List Nat} (hb : Binary cells) (i : Nat) :
    cells.getD i 0 ≤ 1 := by
  rw [List.getD_eq_getElem?_getD]
  cases h : cells[i]? with
  | none => simp
  | some v =>
    rcases hb v (List.getElem?_mem h) with h0 | h1
    · simp [h0]
    · simp [h1]

theorem Binary.ne_zero_iff {cells : List Nat} (hb : Binary cells) (i : Nat) :
    (cells.getD i 0 != 0) = decide (cells.getD i 0 = 1) := by
  have := hb.getD_le i
  rcases Nat.le_one_iff_eq_zero_or_eq_one.1 this with h | h <;> rw [h] <;> rfl

/-- Without wraparound of `x + w_` and `y + h_` the code computes the
specified count. -/
theorem Arena.IsGrid.countNeighs_toroidal {a : Arena} (hg : a.IsGrid)
    (hW : a.w_ ≤ 2147483648) (hH : a.h_ ≤ 2147483648) {x y : Nat} (hx : x < a.w_)
    (hy : y < a.h_) : a.countNeighs x y = some (toroidalCount a.image_ a.w_ a.h_ x y) := by
  have e1 : u32 (u32 (x + a.w_) + 4294967295) = x + a.w_ - 1 := by
    unfold u32
    omega
  have e2 : u32 (u32 (y + a.h_) + 4294967295) = y + a.h_ - 1 := by
    unfold u32
    omega
  have e3 : u32 (x + 1) = x + 1 := by
    unfold u32
    omega
  have e4 : u32 (y + 1) = y + 1 := by
    unfold u32
    omega
  rw [hg.countNeighs_eq hx hy, e1, e2, e3, e4]
  simp only [toroidalCount, Arena.pix, List.flatMap, List.map, List.flatten, List.append,
    List.eraseIdx, List.sum_cons, List.sum_nil, Nat.mul_comm a.w_]
  simp only [List.cons_append, List.nil_append, List.eraseIdx, List.map, List.sum_cons,
    List.sum_nil, Nat.add_zero, Nat.add_assoc]

/-! ## The one-row grid of 2^31 + 1 cells -/

theorem oneRow_isGrid (n : Nat) (h : n + 1 < 4294967296) : (oneRow n).IsGrid := by
  simp [Arena.IsGrid, oneRow, h]

theorem oneRow_binary (n : Nat) : Binary (oneRow n).image_ := by
  intro v hv
  simp only [oneRow, List.mem_cons, List.mem_replicate] at hv
  omega

theorem oneRow_getD (n k : Nat) : (oneRow n).image_.getD k 0 = if k = 0 then 1 else 0 := by
  cases k with
  | zero => rfl
  | succ k =>
    simp only [oneRow, List.getD_cons_succ, List.getD_eq_getElem?_getD, List.getElem?_replicate]
    rw [if_neg (Nat.succ_ne_zero k), List.getElem?_cons_succ, List.getElem?_replicate]
    split <;> rfl

theorem wideRow_isGrid : wideRow.IsGrid := oneRow_isGrid 2147483648 (by norm_num)

theorem wideRow_pix (x : Nat) : wideRow.pix x 0 = if x = 0 then 1 else 0 := by
  have h := oneRow_getD 2147483648 x
  simpa [Arena.pix] using h

theorem wideRow_w : wideRow.w_ = 2147483649 := rfl

theorem wideRow_h : wideRow.h_ = 1 := rfl

theorem wideRow_countNeighs : wideRow.countNeighs 2147483648 0 = some 6 := by
  have c1 : u32 (u32 (2147483648 + 2147483649) + 4294967295) % 2147483649 = 0 := by
    norm_num [u32]
  have c2 : u32 (u32 (0 + 1) + 4294967295) % 1 = 0 := by norm_num [u32]
  have c3 : u32 (2147483648 + 1) % 2147483649 = 0 := by norm_num [u32]
  have c4 : u32 (0 + 1) % 1 = 0 := by norm_num [u32]
  rw [wideRow_isGrid.countNeighs_eq (by rw [wideRow_w]; norm_num) (by rw [wideRow_h]; norm_num),
    wideRow_w, wideRow_h, c1, c2, c3, c4]
  simp only [wideRow_pix]
  norm_num

theorem wideRow_toroidalCount :
    toroidalCount wideRow.image_ wideRow.w_ wideRow.h_ 2147483648 0 = 3 := by
  have hg : ∀ k, wideRow.image_.getD k 0 = if k = 0 then 1 else 0 := oneRow_getD 2147483648
  rw [wideRow_w, wideRow_h]
  generalize wideRow.image_ = cur at hg ⊢
  simp only [toroidalCount, List.flatMap, List.map, List.flatten, List.append,
    List.eraseIdx, List.sum_cons, List.sum_nil, hg]
  norm_num

/-- C1 (amended): on a grid whose width and height are positive and at most
2^31 (so that `x + w_` and `y + h_` do not wrap) and whose cells are 0 or 1,
`update()` succeeds; the dimensions are kept, the new `next_` is the old
`image_`, and every cell `(x, y)` of the new `image_` is the B3/S23 rule applied
to the old cell and to the toroidal live-neighbour count of `(x, y)` in the old
`image_`. -/
theorem update_generation (a : Arena) (hg : a.IsGrid) (hW : 0 < a.w_) (hH : 0 < a.h_)
    (hW' : a.w_ ≤ 2147483648) (hH' : a.h_ ≤ 2147483648) (hb : Binary a.image_) :
    ∃ a', a.update = some a' ∧ a'.w_ = a.w_ ∧ a'.h_ = a.h_ ∧ a'.next_ = a.image_ ∧
      ∀ x y, x < a.w_ → y < a.h_ →
        a'.image_[y * a.w_ + x]? =
          some (if B3S23 (decide (a.image_.getD (y * a.w_ + x) 0 = 1))
            (toroidalCount a.image_ a.w_ a.h_ x y) then 1 else 0) := by
  obtain ⟨s, hs, hw1, hw2, hw3, -, hw5⟩ := hg.update_wrote
  refine ⟨s.swap, hs, hw1, hw2, hw3, fun x y hx hy => ?_⟩
  obtain ⟨n, hn, hv⟩ := hg.cellNew_eq hx hy
  rw [hg.countNeighs_toroidal hW' hH' hx hy] at hn
  have hn' : toroidalCount a.image_ a.w_ a.h_ x y = n := Option.some.inj hn
  have h := (hw5 x y hx hy).1 trivial
  rw [hv, nextLive_eq_B3S23, Arena.pix, hb.ne_zero_iff, ← hn', Nat.mul_comm a.w_ y] at h
  exact h

/-- C1, the amended statement at the 3 x 3 grid `bar3`. -/
theorem update_generation_witness :
    bar3.IsGrid ∧ 0 < bar3.w_ ∧ 0 < bar3.h_ ∧ bar3.w_ ≤ 2147483648 ∧ bar3.h_ ≤ 2147483648 ∧
      Binary bar3.image_ ∧
      ∃ a', bar3.update = some a' ∧ a'.w_ = bar3.w_ ∧ a'.h_ = bar3.h_ ∧
        a'.next_ = bar3.image_ ∧
        ∀ x y, x < bar3.w_ → y < bar3.h_ →
          a'.image_[y * bar3.w_ + x]? =
            some (if B3S23 (decide (bar3.image_.getD (y * bar3.w_ + x) 0 = 1))
              (toroidalCount bar3.image_ bar3.w_ bar3.h_ x y) then 1 else 0) :=
  ⟨by decide, by decide, by decide, by decide, by decide, by decide,
    update_generation bar3 (by decide) (by decide) (by decide) (by decide) (by decide)
      (by decide)⟩

/-- C1 as stated fails on the one-row grid of 2^31 + 1 cells with cell 0 live:
it is a grid with positive dimensions and cells 0 or 1, `update()` succeeds, and
the new cell `(2^31, 0)` is 0, while the rule applied to the old cell and its
toroidal live-neighbour count (which is 3) gives 1. -/
theorem wideRow_update_wraps :
    wideRow.IsGrid ∧ 0 < wideRow.w_ ∧ 0 < wideRow.h_ ∧ Binary wideRow.image_ ∧
      2147483648 < wideRow.w_ ∧ 0 < wideRow.h_ ∧
      ∃ a', wideRow.update = some a' ∧
        a'.image_[0 * wideRow.w_ + 2147483648]? = some 0 ∧
        (if B3S23 (decide (wideRow.image_.getD (0 * wideRow.w_ + 2147483648) 0 = 1))
          (toroidalCount wideRow.image_ wideRow.w_ wideRow.h_ 2147483648 0) then 1 else 0)
          = 1 := by
  have hx : 2147483648 < wideRow.w_ := by rw [wideRow_w]; norm_num
  have hy : 0 < wideRow.h_ := by rw [wideRow_h]; norm_num
  refine ⟨wideRow_isGrid, by omega, hy, oneRow_binary 2147483648, hx, hy, ?_⟩
  obtain ⟨s, hs, -, -, -, -, hw5⟩ := wideRow_isGrid.update_wrote
  obtain ⟨n, hn, hv⟩ := wideRow_isGrid.cellNew_eq hx hy
  rw [wideRow_countNeighs] at hn
  have h := (hw5 2147483648 0 hx hy).1 trivial
  rw [hv, ← Option.some.inj hn, wideRow_pix, Nat.mul_comm] at h
  refine ⟨s.swap, hs, ?_, ?_⟩
  · rw [show s.swap.image_ = s.next_ from rfl, h]
    rfl
  · have hg : ∀ k, wideRow.image_.getD k 0 = if k = 0 then 1 else 0 := oneRow_getD 2147483648
    rw [wideRow_toroidalCount, hg]
    rfl

/-- C2: the rule computed by the loop body of `update` and `updateThread` is the
B3/S23 table, for both values of `live` and every neighbour count (in
particular the nine counts 0..8): a live cell stays live iff the count is 2 or
3, a dead cell becomes live iff the count is 3. -/
theorem nextLive_table (neighCount : Nat) :
    (nextLive true neighCount = true ↔ neighCount = 2 ∨ neighCount = 3) ∧
      (nextLive false neighCount = true ↔ neighCount = 3) := by
  unfold nextLive
  constructor
  · simp
    omega
  · simp

/-- C3 (amended): on a grid whose width and height are positive and at most
2^31, with cells 0 or 1, `countNeighs(x, y)` for `x < w_`, `y < h_` is the sum
of the current buffer over the eight specified coordinate pairs (with
multiplicity), and it is at most 8. -/
theorem countNeighs_toroidal_sum (a : Arena) (hg : a.IsGrid) (hW : 0 < a.w_) (hH : 0 < a.h_)
    (hW' : a.w_ ≤ 2147483648) (hH' : a.h_ ≤ 2147483648) (x y : Nat) (hx : x < a.w_)
    (hy : y < a.h_) (hb : Binary a.image_) :
    a.countNeighs x y = some (toroidalCount a.image_ a.w_ a.h_ x y) ∧
      toroidalCount a.image_ a.w_ a.h_ x y ≤ 8 := by
  refine ⟨hg.countNeighs_toroidal hW' hH' hx hy, ?_⟩
  simp only [toroidalCount, List.flatMap, List.map, List.flatten, List.append,
    List.eraseIdx, List.sum_cons, List.sum_nil]
  have := hb.getD_le
  linarith [this (((y + a.h_ - 1) % a.h_) * a.w_ + (x + a.w_ - 1) % a.w_),
    this (((y + a.h_ - 1) % a.h_) * a.w_ + x),
    this (((y + a.h_ - 1) % a.h_) * a.w_ + (x + 1) % a.w_),
    this (y * a.w_ + (x + a.w_ - 1) % a.w_), this (y * a.w_ + (x + 1) % a.w_),
    this (((y + 1) % a.h_) * a.w_ + (x + a.w_ - 1) % a.w_),
    this (((y + 1) % a.h_) * a.w_ + x), this (((y + 1) % a.h_) * a.w_ + (x + 1) % a.w_)]

/-- C3, the amended statement at the cell `(2, 0)` of the grid `bar3`. -/
theorem countNeighs_toroidal_sum_witness :
    bar3.IsGrid ∧ 0 < bar3.w_ ∧ 0 < bar3.h_ ∧ bar3.w_ ≤ 2147483648 ∧ bar3.h_ ≤ 2147483648 ∧
      2 < bar3.w_ ∧ 0 < bar3.h_ ∧ Binary bar3.image_ ∧
      bar3.countNeighs 2 0 = some (toroidalCount bar3.image_ bar3.w_ bar3.h_ 2 0) ∧
      toroidalCount bar3.image_ bar3.w_ bar3.h_ 2 0 ≤ 8 :=
  ⟨by decide, by decide, by decide, by decide, by decide, by decide, by decide, by decide,
    countNeighs_toroidal_sum bar3 (by decide) (by decide) (by decide) (by decide) (by decide)
      2 0 (by decide) (by decide) (by decide)⟩

/-- C3 as stated fails on the one-row grid of 2^31 + 1 cells with cell 0 live:
at `x = 2^31`, `y = 0` the sum `x + w_` wraps, `countNeighs` returns 6 and the
specified sum is 3. -/
theorem wideRow_countNeighs_wraps :
    wideRow.IsGrid ∧ 0 < wideRow.w_ ∧ 0 < wideRow.h_ ∧ 2147483648 < wideRow.w_ ∧
      0 < wideRow.h_ ∧ Binary wideRow.image_ ∧
      wideRow.countNeighs 2147483648 0 = some 6 ∧
      toroidalCount wideRow.image_ wideRow.w_ wideRow.h_ 2147483648 0 = 3 := by
  have hx : 2147483648 < wideRow.w_ := by rw [wideRow_w]; norm_num
  have hy : 0 < wideRow.h_ := by rw [wideRow_h]; norm_num
  exact ⟨wideRow_isGrid, by omega, hy, hx, hy, oneRow_binary 2147483648, wideRow_countNeighs,
    wideRow_toroidalCount⟩

/-- C5, the code at a failing input: from the 3 x 3 arena seeded first, two
generations with two workers and two generations with one worker both succeed
and end with different current buffers (the third column is never computed by
two workers). -/
theorem generations_two_workers_differ :
    seeded3 = ⟨3, 3, [0, 0, 1, 1, 0, 1, 1, 1, 0], [0, 0, 0, 0, 0, 0, 0, 0, 0]⟩ ∧
      (Arena.generations 2 2 seeded3).map Arena.image_ = some [0, 0, 1, 0, 0, 1, 0, 0, 0] ∧
      (Arena.generations 1 2 seeded3).map Arena.image_ = some [0, 0, 0, 0, 0, 0, 0, 0, 0] := by
  decide

/-- C6, the code at a failing input: `bar3` and `bar3z` have the same
dimensions and the same current buffer and differ in the scratch buffer only;
after one `updateMT` with two workers their current buffers differ in the
third column, which carries the old scratch values. -/
theorem updateMT_keeps_stale_cells :
    bar3.w_ = bar3z.w_ ∧ bar3.h_ = bar3z.h_ ∧ bar3.image_ = bar3z.image_ ∧
      (bar3.updateMT 2).map Arena.image_ = some [1, 1, 1, 1, 1, 1, 1, 1, 1] ∧
      (bar3z.updateMT 2).map Arena.image_ = some [1, 1, 0, 1, 1, 0, 1, 1, 0] := by
  decide

/-! ## The verifier -/

theorem my_rand_lcg (j : Nat) : my_rand (lcg j) = (lcg (j + 1) / 2 ^ 23, lcg (j + 1)) := by
  simp [my_rand, lcg, u32, Nat.shiftRight_eq_div_pow]

theorem seedCells_lcg : ∀ (n j : Nat),
    (seedCells n (lcg j)).2 = lcg (j + n) ∧ (seedCells n (lcg j)).1.length = n ∧
      ∀ k, k < n → (seedCells n (lcg j)).1[k]? = some (lcg (j + k + 1) / 2 ^ 23 % 2) := by
  intro n
  induction n with
  | zero =>
    intro j
    exact ⟨rfl, rfl, fun k hk => (Nat.not_lt_zero k hk).elim⟩
  | succ n ih =>
    intro j
    obtain ⟨h1, h2, h3⟩ := ih (j + 1)
    simp only [seedCells, my_rand_lcg]
    refine ⟨?_, ?_, ?_⟩
    · rw [h1]
      congr 1
      omega
    · simp [h2]
    · intro k hk
      cases k with
      | zero => simp [Nat.and_one_is_mod]
      | succ k =>
        rw [List.getElem?_cons_succ, h3 k (by omega)]
        congr 4
        omega

/-- C9 (amended): the first arena constructed in a process holds
`(W*H) mod 2^32` cells; for every `k` below that number the initial
`image_[k]` is bit 23 of `s_(k+1)`, and the generator is left in state
`s_((W*H) mod 2^32)`: one call of `my_rand` per cell, in buffer order. -/
theorem constructor_seeds_cells (W H k : Nat) (hk : k < u32 (W * H)) :
    (Arena.new W H 0).1.image_[k]? = some (lcg (k + 1) / 2 ^ 23 % 2) ∧
      (Arena.new W H 0).1.image_.length = u32 (W * H) ∧
      (Arena.new W H 0).2 = lcg (u32 (W * H)) := by
  obtain ⟨h1, h2, h3⟩ := seedCells_lcg (u32 (W * H)) 0
  have h0 : lcg 0 = 0 := rfl
  rw [h0] at h1 h2 h3
  refine ⟨?_, h2, ?_⟩
  · have := h3 k hk
    rw [Nat.zero_add] at this
    exact this
  · rw [Nat.zero_add] at h1
    exact h1

/-- C9, the amended statement at the cell 5 of a 4 x 3 arena. -/
theorem constructor_seeds_cells_witness :
    5 < u32 (4 * 3) ∧
      (Arena.new 4 3 0).1.image_[5]? = some (lcg (5 + 1) / 2 ^ 23 % 2) ∧
      (Arena.new 4 3 0).1.image_.length = u32 (4 * 3) ∧
      (Arena.new 4 3 0).2 = lcg (u32 (4 * 3)) :=
  ⟨by decide, constructor_seeds_cells 4 3 5 (by decide)⟩

/-- C9 as stated fails for `W = H = 65536`: the index 0 is below `W*H`, but the
`unsigned` product `W*H` is 0 and the arena has no cell 0. -/
theorem constructor_wraps_cell_count :
    0 < 65536 * 65536 ∧ (Arena.new 65536 65536 0).1.image_[0]? = none ∧
      (Arena.new 65536 65536 0).1.image_ = [] := by
  decide

/-- C10, the code at a failing input: with `cores_ = 0` the method `updateMT`
starts no worker and only exchanges the buffers, on every state; on the 4 x 4
arena seeded first the resulting current buffer is the zeroed scratch buffer,
while `update()` computes a generation with a live cell. -/
theorem updateMT_zero_cores :
    (∀ a : Arena, a.updateMT 0 = some a.swap) ∧
      seeded4 = ⟨4, 4, [0, 0, 1, 1, 0, 1, 1, 1, 0, 1, 1, 0, 1, 1, 0, 0],
        [0, 0, 0, 0, 0, 0, 0, 0, 0, 0, 0, 0, 0, 0, 0, 0]⟩ ∧
      (seeded4.updateMT 0).map Arena.image_ =
        some [0, 0, 0, 0, 0, 0, 0, 0, 0, 0, 0, 0, 0, 0, 0, 0] ∧
      seeded4.update.map Arena.image_ =
        some [0, 0, 0, 0, 0, 0, 0, 0, 0, 0, 0, 0, 1, 0, 0, 0] :=
  ⟨fun _ => rfl, by decide, by decide, by decide⟩

/-! ## The grid invariant -/

theorem idx_decomp {W H k : Nat} (hk : k < W * H) :
    ∃ x y, x < W ∧ y < H ∧ k = W * y + x := by
  have hW : 0 < W := by
    rcases Nat.eq_zero_or_pos W with h | h
    · rw [h, Nat.zero_mul] at hk
      exact (Nat.not_lt_zero k hk).elim
    · exact h
  refine ⟨k % W, k / W, Nat.mod_lt _ hW, ?_, (Nat.div_add_mod k W).symm⟩
  rw [Nat.div_lt_iff_lt_mul hW, Nat.mul_comm]
  exact hk

/-- The cells stored by the loops are 0 or 1, so a binary scratch buffer stays
binary. -/
theorem Wrote.next_binary {P : Nat → Nat → Prop} {a s : Arena} (h : Wrote P a s)
    (hg : a.IsGrid) (hb : Binary a.next_) : Binary s.next_ := by
  intro v hv
  obtain ⟨k, hk⟩ := List.mem_iff_getElem?.1 hv
  obtain ⟨-, -, -, hl, hc⟩ := h
  have hklt : k < a.w_ * a.h_ := by
    obtain ⟨hlt, -⟩ := List.getElem?_eq_some.1 hk
    rw [hl, hg.2.1] at hlt
    exact hlt
  obtain ⟨x, y, hx, hy, rfl⟩ := idx_decomp hklt
  by_cases hp : P x y
  · obtain ⟨n, -, hv'⟩ := hg.cellNew_eq hx hy
    rw [(hc x y hx hy).1 hp, hv'] at hk
    have := Option.some.inj hk
    split at this <;> omega
  · rw [(hc x y hx hy).2 hp] at hk
    exact hb v (List.getElem?_mem hk)

theorem seedCells_shape : ∀ (n state : Nat),
    (seedCells n state).1.length = n ∧ Binary (seedCells n state).1 := by
  intro n
  induction n with
  | zero =>
    intro state
    exact ⟨rfl, fun v hv => by simp [seedCells] at hv⟩
  | succ n ih =>
    intro state
    obtain ⟨h1, h2⟩ := ih (my_rand state).2
    refine ⟨by simp [seedCells, h1], ?_⟩
    intro v hv
    simp only [seedCells, List.mem_cons] at hv
    rcases hv with hv | hv
    · rw [Nat.and_one_is_mod] at hv
      omega
    · exact h2 v hv

theorem Arena.Inv.toGrid {a : Arena} {W H : Nat} (h : a.Inv W H) (hW : W < 4294967296)
    (hH : H < 4294967296) (hWH : W * H < 4294967296) : a.IsGrid := by
  obtain ⟨h1, h2, h3, h4, -, -⟩ := h
  unfold Arena.IsGrid
  rw [h1, h2]
  exact ⟨h3, h4, hWH, hW, hH⟩

theorem Arena.Inv.step {a s : Arena} {W H : Nat} {P : Nat → Nat → Prop} (h : a.Inv W H)
    (hg : a.IsGrid) (hw : Wrote P a s) : s.swap.Inv W H := by
  obtain ⟨h1, h2, h3, h4, h5, h6⟩ := h
  have hb := hw.next_binary hg h6
  obtain ⟨e1, e2, e3, e4, -⟩ := hw
  refine ⟨e1.trans h1, e2.trans h2, ?_, ?_, hb, ?_⟩
  · exact (e4.trans h4 : s.next_.length = W * H)
  · exact ((congrArg List.length e3).trans h3 : s.image_.length = W * H)
  · exact (e3 ▸ h5 : Binary s.image_)

/-- C11 (amended): for dimensions whose product is below 2^32, the constructor
establishes the grid invariant (whatever the generator state), and `update()`
and `updateMT` with any worker count succeed on a state that has it and return
a state that has it again: `w_` and `h_` unchanged, both buffers of length
`W * H`, every cell 0 or 1. -/
theorem grid_invariant (W H : Nat) (hW : W < 4294967296) (hH : H < 4294967296)
    (hWH : W * H < 4294967296) :
    (∀ state, (Arena.new W H state).1.Inv W H) ∧
      (∀ a : Arena, a.Inv W H → ∃ a', a.update = some a' ∧ a'.Inv W H) ∧
      (∀ (T : Nat) (a : Arena), a.Inv W H → ∃ a', a.updateMT T = some a' ∧ a'.Inv W H) := by
  refine ⟨fun state => ?_, fun a h => ?_, fun T a h => ?_⟩
  · obtain ⟨h1, h2⟩ := seedCells_shape (u32 (W * H)) state
    refine ⟨rfl, rfl, ?_, ?_, h2, ?_⟩
    · exact h1.trans (u32_of_lt hWH)
    · simp [Arena.new, u32_of_lt hWH]
    · intro v hv
      simp only [Arena.new, List.mem_replicate] at hv
      exact Or.inl hv.2
  · have hg := h.toGrid hW hH hWH
    obtain ⟨s, hs, hw⟩ := hg.update_wrote
    exact ⟨s.swap, hs, h.step hg hw⟩
  · have hg := h.toGrid hW hH hWH
    obtain ⟨s, hs, hw⟩ := hg.updateMT_wrote T
    exact ⟨s.swap, hs, h.step hg hw⟩

/-- C11, the amended statement for 3 x 3 arenas. -/
theorem grid_invariant_witness :
    3 < 4294967296 ∧ 3 * 3 < 4294967296 ∧
      ((∀ state, (Arena.new 3 3 state).1.Inv 3 3) ∧
      (∀ a : Arena, a.Inv 3 3 → ∃ a', a.update = some a' ∧ a'.Inv 3 3) ∧
      (∀ (T : Nat) (a : Arena), a.Inv 3 3 → ∃ a', a.updateMT T = some a' ∧ a'.Inv 3 3)) :=
  ⟨by decide, by decide, grid_invariant 3 3 (by decide) (by decide) (by decide)⟩

/-- C11 as stated fails for `W = H = 65536`: the constructor builds buffers of
`(W * H) mod 2^32 = 0` cells, not of `W * H` cells. -/
theorem constructor_breaks_length_invariant :
    (Arena.new 65536 65536 0).1.image_.length = 0 ∧
      (Arena.new 65536 65536 0).1.next_.length = 0 ∧
      ¬ (Arena.new 65536 65536 0).1.Inv 65536 65536 := by
  decide

/-! ## Bounds checks, and the workers against the sequential step -/

/-- C15: on a grid `at(x, y)` fails exactly when `x ≥ w_` or `y ≥ h_`, and
otherwise returns the cell `image_[y * w_ + x]`, which exists; a pair with
`x ≥ w_` is rejected also when its flat index is below `w_ * h_`. -/
theorem at_checks_both_coordinates (a : Arena) (hg : a.IsGrid) (x y : Nat) :
    (a.at x y = none ↔ (a.w_ ≤ x ∨ a.h_ ≤ y)) ∧
      (x < a.w_ → y < a.h_ → ∃ v, a.image_[y * a.w_ + x]? = some v ∧ a.at x y = some v) ∧
      (a.w_ ≤ x → y * a.w_ + x < a.w_ * a.h_ → a.at x y = none) := by
  refine ⟨⟨fun h => ?_, fun h => ?_⟩, fun hx hy => ?_, fun hx _ => ?_⟩
  · by_contra hn
    have hx : x < a.w_ := by omega
    have hy : y < a.h_ := by omega
    rw [hg.at_eq hx hy] at h
    exact Option.noConfusion h
  · have hn : ¬ (x < a.w_ ∧ y < a.h_) := by omega
    simp [Arena.at, hn]
  · refine ⟨a.pix x y, ?_, hg.at_eq hx hy⟩
    rw [Nat.mul_comm y a.w_]
    exact hg.image_get hx hy
  · have hn : ¬ (x < a.w_ ∧ y < a.h_) := by omega
    simp [Arena.at, hn]

/-- C15 at the grid `bar3` and the pair `(4, 0)`, whose flat index 4 is inside
the buffer. -/
theorem at_checks_both_coordinates_witness :
    bar3.IsGrid ∧ bar3.w_ ≤ 4 ∧ 0 * bar3.w_ + 4 < bar3.w_ * bar3.h_ ∧ bar3.at 4 0 = none ∧
      ((bar3.at 4 0 = none ↔ (bar3.w_ ≤ 4 ∨ bar3.h_ ≤ 0)) ∧
      (4 < bar3.w_ → 0 < bar3.h_ →
        ∃ v, bar3.image_[0 * bar3.w_ + 4]? = some v ∧ bar3.at 4 0 = some v) ∧
      (bar3.w_ ≤ 4 → 0 * bar3.w_ + 4 < bar3.w_ * bar3.h_ → bar3.at 4 0 = none)) :=
  ⟨by decide, by decide, by decide, by decide, at_checks_both_coordinates bar3 (by decide) 4 0⟩

/-- Two runs of loops that store the same cells from the same grid end in the
same state. -/
theorem Wrote.unique {P : Nat → Nat → Prop} {a s s' : Arena} (h : Wrote P a s)
    (h' : Wrote P a s') (hg : a.IsGrid) : s = s' := by
  obtain ⟨e1, e2, e3, e4, hc⟩ := h
  obtain ⟨f1, f2, f3, f4, hc'⟩ := h'
  have hn : s.next_ = s'.next_ := by
    apply List.ext_getElem?
    intro k
    by_cases hk : k < a.w_ * a.h_
    · obtain ⟨x, y, hx, hy, rfl⟩ := idx_decomp hk
      by_cases hp : P x y
      · rw [(hc x y hx hy).1 hp, (hc' x y hx hy).1 hp]
      · rw [(hc x y hx hy).2 hp, (hc' x y hx hy).2 hp]
    · have h1 : s.next_.length ≤ k := by rw [e4, hg.2.1]; omega
      have h2 : s'.next_.length ≤ k := by rw [f4, hg.2.1]; omega
      rw [List.getElem?_eq_none h1, List.getElem?_eq_none h2]
  cases s
  cases s'
  simp only at e1 e2 e3 f1 f2 f3 hn
  simp only [Arena.mk.injEq]
  exact ⟨e1.trans f1.symm, e2.trans f2.symm, e3.trans f3.symm, hn⟩

/-- When the worker count divides the width, the workers store every cell, as
the sequential loop does: both steps succeed with the same state. -/
theorem Arena.IsGrid.update_and_updateMT {a : Arena} (hg : a.IsGrid) {T : Nat}
    (hd : T ∣ a.w_) : ∃ a', a.update = some a' ∧ a.updateMT T = some a' := by
  obtain ⟨s, hs, hw⟩ := hg.update_wrote
  obtain ⟨s', hs', hw'⟩ := hg.updateMT_wrote T
  have hall : Wrote (fun _ _ => True) a s' := by
    refine hw'.mono fun x _ hx _ => ?_
    rw [Nat.mul_div_cancel' hd]
    exact ⟨fun _ => trivial, fun _ => hx⟩
  rw [hw.unique hall hg] at hs
  exact ⟨s'.swap, hs, hs'⟩

/-- C17: on a grid with positive dimensions and a worker count `T ≥ 1` that
divides `w_`, `updateMT` with `T` workers and `update()` both succeed and
return the same state, so the same `(current, next)` pair. -/
theorem updateMT_eq_update (T : Nat) (hT : 1 ≤ T) (a : Arena) (hg : a.IsGrid)
    (hW : 0 < a.w_) (hH : 0 < a.h_) (hd : T ∣ a.w_) :
    ∃ a', a.update = some a' ∧ a.updateMT T = some a' :=
  hg.update_and_updateMT hd

/-- C17 at the grid `bar3` with three workers. -/
theorem updateMT_eq_update_witness :
    1 ≤ 3 ∧ bar3.IsGrid ∧ 0 < bar3.w_ ∧ 0 < bar3.h_ ∧ 3 ∣ bar3.w_ ∧
      ∃ a', bar3.update = some a' ∧ bar3.updateMT 3 = some a' :=
  ⟨by decide, by decide, by decide, by decide, by decide,
    updateMT_eq_update 3 (by decide) bar3 (by decide) (by decide) (by decide) (by decide)⟩

/-- C20: on a grid with positive dimensions, for a cell `x < w_`, `y < h_` (with
`x + w_` and `y + h_` below 2^32), every coordinate pair the loop body and
`countNeighs` pass to `at` and `atNext` satisfies the two assertions, its flat
index is computed without wraparound and lies below `w_ * h_`, the read
succeeds; `countNeighs` returns the sum of the eight cells and the loop body
completes. -/
theorem cell_body_in_bounds (a : Arena) (hg : a.IsGrid) (hW : 0 < a.w_) (hH : 0 < a.h_)
    (x y : Nat) (hx : x < a.w_) (hy : y < a.h_) (hxW : x + a.w_ < 4294967296)
    (hyH : y + a.h_ < 4294967296) :
    (∀ p ∈ (x, y) :: a.neighCoords x y,
        p.1 < a.w_ ∧ p.2 < a.h_ ∧ p.2 * a.w_ + p.1 < a.w_ * a.h_ ∧
          u32 (a.w_ * p.2 + p.1) = p.2 * a.w_ + p.1 ∧ (a.at p.1 p.2).isSome) ∧
      a.countNeighs x y = some ((a.neighCoords x y).map fun p => a.pix p.1 p.2).sum ∧
      ∃ a', a.cellStep x y = some a' := by
  refine ⟨fun p hp => ?_, ?_, ?_⟩
  · have hc : p.1 < a.w_ ∧ p.2 < a.h_ := by
      simp only [Arena.neighCoords, List.mem_cons, List.mem_singleton, List.not_mem_nil,
        or_false] at hp
      rcases hp with rfl | rfl | rfl | rfl | rfl | rfl | rfl | rfl | rfl <;>
        exact ⟨by first | exact Nat.mod_lt _ hW | exact hx,
          by first | exact Nat.mod_lt _ hH | exact hy⟩
    refine ⟨hc.1, hc.2, ?_, ?_, ?_⟩
    · rw [Nat.mul_comm p.2 a.w_]
      exact idx_lt hc.1 hc.2
    · rw [hg.idx_u32 hc.1 hc.2, Nat.mul_comm p.2 a.w_]
    · rw [hg.at_eq hc.1 hc.2]
      rfl
  · rw [hg.countNeighs_eq hx hy]
    simp only [Arena.neighCoords, List.map, List.sum_cons, List.sum_nil, Nat.add_zero,
      Nat.add_assoc]
  · obtain ⟨a', ha', -⟩ := hg.cellStep_wrote hx hy
    exact ⟨a', ha'⟩

/-- C20 at the corner cell `(2, 2)` of the grid `bar3`. -/
theorem cell_body_in_bounds_witness :
    bar3.IsGrid ∧ 0 < bar3.w_ ∧ 0 < bar3.h_ ∧ 2 < bar3.w_ ∧ 2 < bar3.h_ ∧
      2 + bar3.w_ < 4294967296 ∧ 2 + bar3.h_ < 4294967296 ∧
      ((∀ p ∈ (2, 2) :: bar3.neighCoords 2 2,
        p.1 < bar3.w_ ∧ p.2 < bar3.h_ ∧ p.2 * bar3.w_ + p.1 < bar3.w_ * bar3.h_ ∧
          u32 (bar3.w_ * p.2 + p.1) = p.2 * bar3.w_ + p.1 ∧ (bar3.at p.1 p.2).isSome) ∧
      bar3.countNeighs 2 2 = some ((bar3.neighCoords 2 2).map fun p => bar3.pix p.1 p.2).sum ∧
      ∃ a', bar3.cellStep 2 2 = some a') :=
  ⟨by decide, by decide, by decide, by decide, by decide, by simp [bar3], by simp [bar3],
    cell_body_in_bounds bar3 (by decide) (by decide) (by decide) 2 2 (by decide) (by decide)
      (by simp [bar3]) (by simp [bar3])⟩

/-! ## The frame of a worker -/

/-- Worker `i < T` of `updateMT`, run on any grid `s` of the dimensions of `a`,
stores the cells of its slice. -/
theorem Arena.IsGrid.worker_wrote {a : Arena} (hg : a.IsGrid) {T i : Nat} (hi : i < T)
    {s : Arena} (hs : s.IsGrid) (hsw : s.w_ = a.w_) :
    ∃ s', s.updateThread (u32 (i * (a.w_ / T))) (u32 ((i + 1) * (a.w_ / T))) = some s' ∧
      Wrote (fun x' _ => i * (a.w_ / T) ≤ x' ∧ x' < (i + 1) * (a.w_ / T)) s s' := by
  have h1 : (i + 1) * (a.w_ / T) ≤ a.w_ :=
    le_trans (Nat.mul_le_mul_right _ hi) (Nat.mul_div_le a.w_ T)
  have h2 : i * (a.w_ / T) ≤ (i + 1) * (a.w_ / T) := Nat.mul_le_mul_right _ (Nat.le_succ i)
  rw [u32_of_lt (lt_of_le_of_lt (le_trans h2 h1) hg.2.2.2.1),
    u32_of_lt (lt_of_le_of_lt h1 hg.2.2.2.1)]
  exact hs.updateThread_wrote (hsw ▸ h1)

/-- The workers of `updateMT`, run one after the other in the order of any list
`l` of worker numbers below `T`, store the cells of the slices of `l`. -/
theorem Arena.IsGrid.workers_wrote {a : Arena} (hg : a.IsGrid) (T : Nat) (l : List Nat)
    (hl : ∀ i ∈ l, i < T) :
    ∃ s, l.foldlM (fun (s : Arena) i =>
        s.updateThread (u32 (i * (a.w_ / T))) (u32 ((i + 1) * (a.w_ / T)))) a = some s ∧
      Wrote (fun x' _ => ∃ i ∈ l, i * (a.w_ / T) ≤ x' ∧ x' < (i + 1) * (a.w_ / T)) a s :=
  foldlM_wrote
    (fun s i => s.updateThread (u32 (i * (a.w_ / T))) (u32 ((i + 1) * (a.w_ / T))))
    (fun i x' _ => i * (a.w_ / T) ≤ x' ∧ x' < (i + 1) * (a.w_ / T)) a.w_ a.h_ l a hg rfl rfl
    (fun i hi s hs hsw _ => hg.worker_wrote (hl i hi) hs hsw)

/-- C16: on a grid, `updateThread(fromX, toX)` with `fromX ≤ toX ≤ w_` succeeds,
leaves the dimensions and `image_` unchanged, and leaves `next_` unchanged at
every index that is not `y * w_ + x` for a column `fromX ≤ x < toX` and a row
`y < h_`; the indices of the slices of two different workers of one `updateMT`
call are different; and the workers of `updateMT`, run in the order of any
permutation of `0 .. T-1`, end in the same state as in spawn order. -/
theorem updateThread_frame (a : Arena) (hg : a.IsGrid) (fromX toX : Nat) (hft : fromX ≤ toX)
    (hto : toX ≤ a.w_) :
    (∃ a', a.updateThread fromX toX = some a' ∧ a'.w_ = a.w_ ∧ a'.h_ = a.h_ ∧
        a'.image_ = a.image_ ∧
        ∀ k, (∀ x y, fromX ≤ x → x < toX → y < a.h_ → k ≠ y * a.w_ + x) →
          a'.next_[k]? = a.next_[k]?) ∧
      (∀ T i j x y x' y', i < T → j < T → i ≠ j →
        i * (a.w_ / T) ≤ x → x < (i + 1) * (a.w_ / T) →
        j * (a.w_ / T) ≤ x' → x' < (j + 1) * (a.w_ / T) →
        y * a.w_ + x ≠ y' * a.w_ + x') ∧
      (∀ (T : Nat) (l : List Nat), l.Perm (List.range T) →
        l.foldlM (fun (s : Arena) i =>
            s.updateThread (u32 (i * (a.w_ / T))) (u32 ((i + 1) * (a.w_ / T)))) a =
          (List.range T).foldlM (fun (s : Arena) i =>
            s.updateThread (u32 (i * (a.w_ / T))) (u32 ((i + 1) * (a.w_ / T)))) a) := by
  refine ⟨?_, ?_, ?_⟩
  · obtain ⟨a', ha', e1, e2, e3, e4, hc⟩ := @Arena.IsGrid.updateThread_wrote a hg fromX toX hto
    refine ⟨a', ha', e1, e2, e3, fun k hk => ?_⟩
    by_cases hlt : k < a.w_ * a.h_
    · obtain ⟨x, y, hx, hy, rfl⟩ := idx_decomp hlt
      refine (hc x y hx hy).2 fun hin => ?_
      exact hk x y hin.1 hin.2 hy (Nat.mul_comm a.w_ y ▸ rfl)
    · have h1 : a'.next_.length ≤ k := by rw [e4, hg.2.1]; omega
      have h2 : a.next_.length ≤ k := by rw [hg.2.1]; omega
      rw [List.getElem?_eq_none h1, List.getElem?_eq_none h2]
  · intro T i j x y x' y' hi hj hij h1 h2 h3 h4 he
    have hxW : x < a.w_ := lt_of_lt_of_le h2
      (le_trans (Nat.mul_le_mul_right _ hi) (Nat.mul_div_le a.w_ T))
    have hxW' : x' < a.w_ := lt_of_lt_of_le h4
      (le_trans (Nat.mul_le_mul_right _ hj) (Nat.mul_div_le a.w_ T))
    rw [Nat.mul_comm y, Nat.mul_comm y'] at he
    obtain ⟨hxx, -⟩ := idx_inj hxW hxW' he
    subst hxx
    rcases Nat.lt_or_gt_of_ne hij with hlt | hgt
    · have : (i + 1) * (a.w_ / T) ≤ j * (a.w_ / T) := Nat.mul_le_mul_right _ hlt
      omega
    · have : (j + 1) * (a.w_ / T) ≤ i * (a.w_ / T) := Nat.mul_le_mul_right _ hgt
      omega
  · intro T l hp
    obtain ⟨s, hs, hw⟩ := hg.workers_wrote T l
      (fun i hi => List.mem_range.1 (hp.mem_iff.1 hi))
    obtain ⟨s', hs', hw'⟩ := hg.workers_wrote T (List.range T)
      (fun i hi => List.mem_range.1 hi)
    have hw2 := hw.mono (Q := fun x' _ => ∃ i ∈ List.range T,
        i * (a.w_ / T) ≤ x' ∧ x' < (i + 1) * (a.w_ / T))
      (fun x' _ _ _ => ⟨fun ⟨i, hi, h⟩ => ⟨i, hp.mem_iff.1 hi, h⟩,
        fun ⟨i, hi, h⟩ => ⟨i, hp.mem_iff.2 hi, h⟩⟩)
    rw [hs, hs', hw2.unique hw' hg]

/-- C16 at the grid `bar3` and the slice of its middle column. -/
theorem updateThread_frame_witness :
    bar3.IsGrid ∧ 1 ≤ 2 ∧ 2 ≤ bar3.w_ ∧
      ((∃ a', bar3.updateThread 1 2 = some a' ∧ a'.w_ = bar3.w_ ∧ a'.h_ = bar3.h_ ∧
        a'.image_ = bar3.image_ ∧
        ∀ k, (∀ x y, 1 ≤ x → x < 2 → y < bar3.h_ → k ≠ y * bar3.w_ + x) →
          a'.next_[k]? = bar3.next_[k]?) ∧
      (∀ T i j x y x' y', i < T → j < T → i ≠ j →
        i * (bar3.w_ / T) ≤ x → x < (i + 1) * (bar3.w_ / T) →
        j * (bar3.w_ / T) ≤ x' → x' < (j + 1) * (bar3.w_ / T) →
        y * bar3.w_ + x ≠ y' * bar3.w_ + x') ∧
      (∀ (T : Nat) (l : List Nat), l.Perm (List.range T) →
        l.foldlM (fun (s : Arena) i =>
            s.updateThread (u32 (i * (bar3.w_ / T))) (u32 ((i + 1) * (bar3.w_ / T)))) bar3 =
          (List.range T).foldlM (fun (s : Arena) i =>
            s.updateThread (u32 (i * (bar3.w_ / T))) (u32 ((i + 1) * (bar3.w_ / T)))) bar3)) :=
  ⟨by decide, by decide, by decide,
    updateThread_frame bar3 (by decide) 1 2 (by decide) (by decide)⟩

/-! ## The remainder columns -/

theorem Arena.IsGrid.updateMT_remainder {a : Arena} (hg : a.IsGrid) (T : Nat) :
    ∃ a', a.updateMT T = some a' ∧ a'.IsGrid ∧ a'.w_ = a.w_ ∧ a'.h_ = a.h_ ∧
      a'.next_ = a.image_ ∧
      ∀ x y, T * (a.w_ / T) ≤ x → x < a.w_ → y < a.h_ →
        a'.image_[a.w_ * y + x]? = a.next_[a.w_ * y + x]? := by
  obtain ⟨s, hs, hw⟩ := hg.updateMT_wrote T
  have hgs := hw.isGrid hg
  obtain ⟨e1, e2, e3, e4, hc⟩ := hw
  refine ⟨s.swap, hs, ?_, e1, e2, e3, fun x y hle hx hy => ?_⟩
  · obtain ⟨g1, g2, g3⟩ := hgs
    exact ⟨g2, g1, g3⟩
  · exact (hc x y hx hy).2 (Nat.not_lt.2 hle)

/-- After `g` calls of `updateMT` on a grid each cell of a remainder column holds
what the scratch buffer held at the start when `g` is odd, and what the current
buffer held at the start when `g` is even. -/
theorem Arena.IsGrid.generations_remainder (T : Nat) : ∀ (g : Nat) (a : Arena), a.IsGrid →
    ∃ a', Arena.generations T g a = some a' ∧ a'.w_ = a.w_ ∧ a'.h_ = a.h_ ∧
      ∀ x y, T * (a.w_ / T) ≤ x → x < a.w_ → y < a.h_ →
        a'.image_[a.w_ * y + x]? =
          if g % 2 = 1 then a.next_[a.w_ * y + x]? else a.image_[a.w_ * y + x]? := by
  intro g
  induction g with
  | zero =>
    intro a _
    exact ⟨a, rfl, rfl, rfl, fun _ _ _ _ _ => rfl⟩
  | succ g ih =>
    intro a hg
    obtain ⟨a1, h1, hg1, w1, hh1, n1, r1⟩ := hg.updateMT_remainder T
    obtain ⟨a2, h2, w2, hh2, r2⟩ := ih a1 hg1
    refine ⟨a2, ?_, w2.trans w1, hh2.trans hh1, fun x y hle hx hy => ?_⟩
    · simp only [Arena.generations, h1, Option.some_bind]
      exact h2
    · have := r2 x y (w1 ▸ hle) (w1 ▸ hx) (hh1 ▸ hy)
      rw [w1, n1, r1 x y hle hx hy] at this
      rw [this]
      by_cases hodd : g % 2 = 1
      · have : ¬ (g + 1) % 2 = 1 := by omega
        simp [hodd, this]
      · have : (g + 1) % 2 = 1 := by omega
        simp [hodd, this]

theorem new_isGrid (W H state : Nat) (hW : W < 4294967296) (hH : H < 4294967296)
    (hWH : W * H < 4294967296) : (Arena.new W H state).1.IsGrid := by
  obtain ⟨h1, -⟩ := seedCells_shape (u32 (W * H)) state
  refine ⟨h1.trans (u32_of_lt hWH), ?_, hWH, hW, hH⟩
  simp [Arena.new, u32_of_lt hWH]

/-- C18 (amended): for dimensions whose product is below 2^32 and a worker count
`T ≥ 1` that does not divide `W`, any number `g` of calls of `updateMT` on a
freshly constructed arena succeeds, and afterwards every cell of a remainder
column `x ≥ T * (W / T)` is 0 when `g` is odd and the seeded value of the cell
when `g` is even. -/
theorem remainder_columns_never_evolve (W H T state g : Nat) (hW : W < 4294967296)
    (hH : H < 4294967296) (hWH : W * H < 4294967296) (hT : 1 ≤ T) (hnd : ¬ T ∣ W) :
    ∃ a', Arena.generations T g (Arena.new W H state).1 = some a' ∧
      ∀ x y, T * (W / T) ≤ x → x < W → y < H →
        a'.image_[y * W + x]? =
          some (if g % 2 = 1 then 0
            else (Arena.new W H state).1.image_.getD (y * W + x) 0) := by
  have hg := new_isGrid W H state hW hH hWH
  obtain ⟨a', ha', -, -, hr⟩ := Arena.IsGrid.generations_remainder T g _ hg
  refine ⟨a', ha', fun x y hle hx hy => ?_⟩
  have h := hr x y hle hx hy
  have hw : (Arena.new W H state).1.w_ = W := rfl
  rw [hw] at h
  have hlt : W * y + x < W * H := idx_lt hx hy
  rw [Nat.mul_comm y W, h]
  by_cases hodd : g % 2 = 1
  · simp only [hodd, if_true]
    simp [Arena.new, u32_of_lt hWH, List.getElem?_replicate, hlt]
  · simp only [hodd, if_false]
    have := hg.image_get (x := x) (y := y) hx hy
    rw [hw] at this
    rw [this, Arena.pix, hw]

/-- C18, the amended statement for the 3 x 3 arena built first, two workers
and one generation. -/
theorem remainder_columns_never_evolve_witness :
    3 < 4294967296 ∧ 3 * 3 < 4294967296 ∧ 1 ≤ 2 ∧ ¬ 2 ∣ 3 ∧
      ∃ a', Arena.generations 2 1 (Arena.new 3 3 0).1 = some a' ∧
        ∀ x y, 2 * (3 / 2) ≤ x → x < 3 → y < 3 →
          a'.image_[y * 3 + x]? =
            some (if 1 % 2 = 1 then 0
              else (Arena.new 3 3 0).1.image_.getD (y * 3 + x) 0) :=
  ⟨by decide, by decide, by decide, by decide,
    remainder_columns_never_evolve 3 3 2 0 1 (by decide) (by decide) (by decide) (by decide)
      (by decide)⟩

/-- A worker with a non-empty slice fails on an arena that has rows but no
cells: its first read is out of range. -/
theorem updateThread_none_of_empty (a : Arena) (hi : a.image_ = []) (hh : 0 < a.h_)
    (fromX toX : Nat) (hft : fromX < toX) : a.updateThread fromX toX = none := by
  obtain ⟨n, hn⟩ := Nat.exists_eq_succ_of_ne_zero (Nat.pos_iff_ne_zero.1 hh)
  obtain ⟨m, hm⟩ := Nat.exists_eq_succ_of_ne_zero (Nat.sub_ne_zero_of_lt hft)
  have hcell : a.cellStep fromX 0 = none := by
    simp [Arena.cellStep, Arena.at, hi]
  unfold Arena.updateThread
  rw [hn, hm, List.range_succ_eq_map, List.foldlM_cons, List.range'_succ, List.foldlM_cons,
    hcell]
  rfl

/-- C18 as stated fails for `W = H = 65536` with three workers (3 does not
divide 65536): the freshly constructed arena has no cells, the first worker has
the slice of columns 0 .. 21844 and fails at its first read, so there is no
state after one call of `updateMT`. -/
theorem updateMT_fails_on_wrapped_arena :
    1 ≤ 3 ∧ ¬ 3 ∣ 65536 ∧ (Arena.new 65536 65536 0).1.image_ = [] ∧
      Arena.generations 3 1 (Arena.new 65536 65536 0).1 = none := by
  have hi : (Arena.new 65536 65536 0).1.image_ = [] := by decide
  have hw : (Arena.new 65536 65536 0).1.w_ = 65536 := rfl
  have hh : 0 < (Arena.new 65536 65536 0).1.h_ := by
    rw [show (Arena.new 65536 65536 0).1.h_ = 65536 from rfl]
    norm_num
  refine ⟨by decide, by decide, hi, ?_⟩
  generalize (Arena.new 65536 65536 0).1 = a at hi hw hh
  have h0 : a.updateThread (u32 (0 * (a.w_ / 3))) (u32 ((0 + 1) * (a.w_ / 3))) = none := by
    apply updateThread_none_of_empty a hi hh
    rw [hw]
    norm_num [u32]
  have hmt : a.updateMT 3 = none := by
    unfold Arena.updateMT
    rw [show List.range 3 = [0, 1, 2] from rfl, List.foldlM_cons, h0]
    rfl
  simp only [Arena.generations, hmt]
  rfl

/-! ## Rectangular patterns -/

theorem pred_mod {W x : Nat} (hx : x < W) :
    (x + W - 1) % W = if x = 0 then W - 1 else x - 1 := by
  by_cases h0 : x = 0
  · subst h0
    rw [if_pos rfl, Nat.zero_add]
    exact Nat.mod_eq_of_lt (by omega)
  · rw [if_neg h0, show x + W - 1 = x - 1 + W from by omega, Nat.add_mod_right]
    exact Nat.mod_eq_of_lt (by omega)

theorem succ_mod {W x : Nat} (hx : x < W) :
    (x + 1) % W = if x + 1 = W then 0 else x + 1 := by
  by_cases h0 : x + 1 = W
  · rw [if_pos h0, h0]
    exact Nat.mod_self W
  · rw [if_neg h0]
    exact Nat.mod_eq_of_lt (by omega)

/-- Without wraparound `countNeighs` is the sum of the eight cells at the
wrapped coordinates. -/
theorem Arena.IsGrid.countNeighs_pix {a : Arena} (hg : a.IsGrid) (hW : a.w_ ≤ 2147483648)
    (hH : a.h_ ≤ 2147483648) {x y : Nat} (hx : x < a.w_) (hy : y < a.h_) :
    a.countNeighs x y = some
      (a.pix ((x + a.w_ - 1) % a.w_) ((y + a.h_ - 1) % a.h_)
      + a.pix x ((y + a.h_ - 1) % a.h_)
      + a.pix ((x + 1) % a.w_) ((y + a.h_ - 1) % a.h_)
      + a.pix ((x + a.w_ - 1) % a.w_) y
      + a.pix ((x + 1) % a.w_) y
      + a.pix ((x + a.w_ - 1) % a.w_) ((y + 1) % a.h_)
      + a.pix x ((y + 1) % a.h_)
      + a.pix ((x + 1) % a.w_) ((y + 1) % a.h_)) := by
  have e1 : u32 (u32 (x + a.w_) + 4294967295) = x + a.w_ - 1 := by
    unfold u32
    omega
  have e2 : u32 (u32 (y + a.h_) + 4294967295) = y + a.h_ - 1 := by
    unfold u32
    omega
  have e3 : u32 (x + 1) = x + 1 := by
    unfold u32
    omega
  have e4 : u32 (y + 1) = y + 1 := by
    unfold u32
    omega
  rw [hg.countNeighs_eq hx hy, e1, e2, e3, e4]

/-- On a grid whose live cells form a rectangle (the product of a span of
columns and a span of rows), the neighbour count of a cell plus the cell itself
is the product of the two one-dimensional counts. -/
theorem Arena.IsGrid.rect_count {a : Arena} (hg : a.IsGrid) (hW : a.w_ ≤ 2147483648)
    (hH : a.h_ ≤ 2147483648) (lx ux ly uy : Nat)
    (hp : ∀ x y, x < a.w_ → y < a.h_ → a.pix x y = inSpan lx ux x * inSpan ly uy y)
    {x y : Nat} (hx : x < a.w_) (hy : y < a.h_) :
    ∃ n, a.countNeighs x y = some n ∧
      a.cellNew x y = some (if nextLive (inSpan lx ux x * inSpan ly uy y != 0) n then 1 else 0) ∧
      n + inSpan lx ux x * inSpan ly uy y = spanNear a.w_ lx ux x * spanNear a.h_ ly uy y := by
  have hw0 : 0 < a.w_ := by omega
  have hh0 : 0 < a.h_ := by omega
  obtain ⟨n, hn, hv⟩ := hg.cellNew_eq hx hy
  refine ⟨n, hn, by rw [hv, hp x y hx hy], ?_⟩
  rw [hg.countNeighs_pix hW hH hx hy] at hn
  have hn' := Option.some.inj hn
  rw [hp _ _ (Nat.mod_lt _ hw0) (Nat.mod_lt _ hh0), hp _ _ hx (Nat.mod_lt _ hh0),
    hp _ _ (Nat.mod_lt _ hw0) hy, hp _ _ (Nat.mod_lt _ hw0) (Nat.mod_lt _ hh0),
    hp _ _ (Nat.mod_lt _ hw0) (Nat.mod_lt _ hh0), hp _ _ hx (Nat.mod_lt _ hh0),
    hp _ _ (Nat.mod_lt _ hw0) hy, hp _ _ (Nat.mod_lt _ hw0) (Nat.mod_lt _ hh0)] at hn'
  rw [← hn']
  unfold spanNear
  ring

/-- One-dimensional count for a span of one coordinate. -/
theorem spanNear_one {W c x : Nat} (hW : 3 ≤ W) (hc : c < W) (hx : x < W) :
    spanNear W c c x =
      if x = c ∨ x + 1 = c ∨ x = c + 1 ∨ (c = 0 ∧ x + 1 = W) ∨ (c + 1 = W ∧ x = 0)
      then 1 else 0 := by
  unfold spanNear inSpan
  rw [pred_mod hx, succ_mod hx]
  split_ifs <;> omega

/-- One-dimensional count for the span that holds the coordinate 0 only. -/
theorem spanNear_zero {W x : Nat} (hW : 3 ≤ W) (hx : x < W) :
    spanNear W 0 0 x = if x = 0 ∨ x = 1 ∨ x + 1 = W then 1 else 0 := by
  unfold spanNear inSpan
  rw [pred_mod hx, succ_mod hx]
  split_ifs <;> omega

/-- One-dimensional count for a span of two coordinates. -/
theorem spanNear_two {W c x : Nat} (hW : 4 ≤ W) (hc : c + 1 < W) (hx : x < W) :
    (c ≤ x ∧ x ≤ c + 1 → spanNear W c (c + 1) x = 2) ∧
      (¬ (c ≤ x ∧ x ≤ c + 1) → spanNear W c (c + 1) x ≤ 1) := by
  unfold spanNear inSpan
  rw [pred_mod hx, succ_mod hx]
  constructor <;> intro h <;> split_ifs <;> omega

/-- One-dimensional count for a span of three coordinates. -/
theorem spanNear_three {W c x : Nat} (hW : 5 ≤ W) (hc1 : 1 ≤ c) (hc : c + 1 < W) (hx : x < W) :
    (x = c → spanNear W (c - 1) (c + 1) x = 3) ∧
      (x + 1 = c ∨ x = c + 1 → spanNear W (c - 1) (c + 1) x = 2) ∧
      (¬ (c - 1 ≤ x ∧ x ≤ c + 1) → spanNear W (c - 1) (c + 1) x ≤ 1) := by
  unfold spanNear inSpan
  rw [pred_mod hx, succ_mod hx]
  refine ⟨fun h => ?_, fun h => ?_, fun h => ?_⟩ <;> split_ifs <;> omega

theorem Arena.IsGrid.pix_of_alive {a : Arena} (hg : a.IsGrid) {cells : List (Nat × Nat)}
    (hc : a.Alive cells) {x y : Nat} (hx : x < a.w_) (hy : y < a.h_) :
    a.pix x y = if (x, y) ∈ cells then 1 else 0 := by
  have h1 := hg.image_get hx hy
  have h2 := hc x hx y hy
  rw [Nat.mul_comm y a.w_, h1] at h2
  exact Option.some.inj h2

/-- A grid with at least two rows and two columns is narrower than 2^31 in both
directions. -/
theorem Arena.IsGrid.small {a : Arena} (hg : a.IsGrid) (hW : 2 ≤ a.w_) (hH : 2 ≤ a.h_) :
    a.w_ ≤ 2147483648 ∧ a.h_ ≤ 2147483648 := by
  have h1 : a.w_ * 2 ≤ a.w_ * a.h_ := Nat.mul_le_mul_left _ hH
  have h2 : 2 * a.h_ ≤ a.w_ * a.h_ := Nat.mul_le_mul_right _ hW
  have h3 := hg.2.2.1
  omega

/-- C12: on a grid with at least three rows and three columns whose only live
cell is `(0, 0)`, `countNeighs` returns 1 at the eight cells `(W-1, H-1)`,
`(0, H-1)`, `(1, H-1)`, `(W-1, 0)`, `(1, 0)`, `(W-1, 1)`, `(0, 1)`, `(1, 1)` and 0
at every other cell, `(0, 0)` included. -/
theorem countNeighs_single_cell (a : Arena) (hg : a.IsGrid) (hW : 3 ≤ a.w_) (hH : 3 ≤ a.h_)
    (hc : a.Alive [(0, 0)]) (x y : Nat) (hx : x < a.w_) (hy : y < a.h_) :
    a.countNeighs x y = some
      (if (x, y) ∈ [(a.w_ - 1, a.h_ - 1), (0, a.h_ - 1), (1, a.h_ - 1), (a.w_ - 1, 0), (1, 0),
        (a.w_ - 1, 1), (0, 1), (1, 1)] then 1 else 0) := by
  obtain ⟨hW', hH'⟩ := hg.small (by omega) (by omega)
  have hp : ∀ x y, x < a.w_ → y < a.h_ → a.pix x y = inSpan 0 0 x * inSpan 0 0 y := by
    intro x y hx hy
    rw [hg.pix_of_alive hc hx hy]
    simp only [List.mem_singleton, Prod.mk.injEq, inSpan]
    split_ifs <;> omega
  obtain ⟨n, hn, -, he⟩ := hg.rect_count hW' hH' 0 0 0 0 hp hx hy
  rw [spanNear_zero hW hx, spanNear_zero hH hy] at he
  rw [hn]
  simp only [List.mem_cons, Prod.mk.injEq, List.mem_singleton, List.not_mem_nil, or_false,
    inSpan] at he ⊢
  congr 1
  split_ifs at he ⊢ <;> omega

/-- C12 at the cell `(2, 2)` of the 3 x 3 grid `corner3`. -/
theorem countNeighs_single_cell_witness :
    corner3.IsGrid ∧ 3 ≤ corner3.w_ ∧ 3 ≤ corner3.h_ ∧ corner3.Alive [(0, 0)] ∧
      2 < corner3.w_ ∧ 2 < corner3.h_ ∧
      corner3.countNeighs 2 2 = some
        (if (2, 2) ∈ [(corner3.w_ - 1, corner3.h_ - 1), (0, corner3.h_ - 1),
          (1, corner3.h_ - 1), (corner3.w_ - 1, 0), (1, 0), (corner3.w_ - 1, 1), (0, 1), (1, 1)]
          then 1 else 0) :=
  ⟨by decide, by decide, by decide, by decide, by decide, by decide,
    countNeighs_single_cell corner3 (by decide) (by decide) (by decide) (by decide) 2 2
      (by decide) (by decide)⟩

theorem inSpan_mul_ne (a b c d x y : Nat) :
    (inSpan a b x * inSpan c d y != 0) = decide ((a ≤ x ∧ x ≤ b) ∧ (c ≤ y ∧ y ≤ d)) := by
  unfold inSpan
  by_cases h1 : a ≤ x ∧ x ≤ b <;> by_cases h2 : c ≤ y ∧ y ≤ d <;> simp [h1, h2]

/-- The rule on a cell of a grid that shows a 2 x 2 block. -/
theorem block_cell {W H x0 y0 x y n : Nat} (hW : 4 ≤ W) (hH : 4 ≤ H) (hx0 : x0 + 1 < W)
    (hy0 : y0 + 1 < H) (hx : x < W) (hy : y < H)
    (he : n + inSpan x0 (x0 + 1) x * inSpan y0 (y0 + 1) y =
      spanNear W x0 (x0 + 1) x * spanNear H y0 (y0 + 1) y) :
    nextLive (inSpan x0 (x0 + 1) x * inSpan y0 (y0 + 1) y != 0) n =
      decide ((x0 ≤ x ∧ x ≤ x0 + 1) ∧ (y0 ≤ y ∧ y ≤ y0 + 1)) := by
  obtain ⟨fx1, fx2⟩ := spanNear_two hW hx0 hx
  obtain ⟨fy1, fy2⟩ := spanNear_two hH hy0 hy
  rw [nextLive_eq_B3S23, inSpan_mul_ne]
  unfold B3S23
  simp only [decide_eq_true_eq]
  unfold inSpan at he
  by_cases h1 : x0 ≤ x ∧ x ≤ x0 + 1 <;> by_cases h2 : y0 ≤ y ∧ y ≤ y0 + 1
  · rw [fx1 h1, fy1 h2, if_pos h1, if_pos h2] at he
    rw [if_pos ⟨h1, h2⟩]
    simp only [decide_eq_decide]
    omega
  · rw [fx1 h1, if_pos h1, if_neg h2] at he
    have := fy2 h2
    rw [if_neg (fun h => h2 h.2)]
    simp only [decide_eq_decide]
    omega
  · rw [fy1 h2, if_neg h1, if_pos h2] at he
    have := fx2 h1
    rw [if_neg (fun h => h1 h.1)]
    simp only [decide_eq_decide]
    omega
  · rw [if_neg h1, if_neg h2] at he
    have := Nat.mul_le_mul (fx2 h1) (fy2 h2)
    rw [if_neg (fun h => h1 h.1)]
    simp only [decide_eq_decide]
    omega

/-- The rule on a cell of a grid that shows a bar of three cells along the
first coordinate, centred at `(c, r)`: the next generation is the bar of three
cells along the second coordinate. -/
theorem bar_cell {W H c r x y n : Nat} (hW : 5 ≤ W) (hH : 3 ≤ H) (hc1 : 1 ≤ c)
    (hc : c + 1 < W) (hr1 : 1 ≤ r) (hr : r + 1 < H) (hx : x < W) (hy : y < H)
    (he : n + inSpan (c - 1) (c + 1) x * inSpan r r y =
      spanNear W (c - 1) (c + 1) x * spanNear H r r y) :
    nextLive (inSpan (c - 1) (c + 1) x * inSpan r r y != 0) n =
      decide (x = c ∧ r - 1 ≤ y ∧ y ≤ r + 1) := by
  obtain ⟨f1, f2, f3⟩ := spanNear_three hW hc1 hc hx
  rw [spanNear_one hH (by omega) hy] at he
  rw [nextLive_eq_B3S23, inSpan_mul_ne]
  unfold B3S23
  simp only [decide_eq_true_eq]
  unfold inSpan at he
  by_cases h1 : x = c
  · rw [f1 h1] at he
    split_ifs at he ⊢ <;> simp only [decide_eq_decide] <;> omega
  · by_cases h2 : x + 1 = c ∨ x = c + 1
    · rw [f2 h2] at he
      split_ifs at he ⊢ <;> simp only [decide_eq_decide] <;> omega
    · have := f3 (by omega)
      split_ifs at he ⊢ <;> simp only [decide_eq_decide] <;> omega

/-! ## Still life and oscillator -/

/-- If the loop body gives every cell the value it has in the pattern `cells`,
`update()` succeeds and the new state shows `cells`. -/
theorem Arena.IsGrid.update_alive {a : Arena} (hg : a.IsGrid) {cells : List (Nat × Nat)}
    (hnew : ∀ x y, x < a.w_ → y < a.h_ →
      a.cellNew x y = some (if (x, y) ∈ cells then 1 else 0)) :
    ∃ a', a.update = some a' ∧ a'.IsGrid ∧ a'.w_ = a.w_ ∧ a'.h_ = a.h_ ∧ a'.Alive cells := by
  obtain ⟨s, hs, hw⟩ := hg.update_wrote
  have hgs := hw.isGrid hg
  obtain ⟨e1, e2, e3, e4, hc⟩ := hw
  refine ⟨s.swap, hs, ?_, e1, e2, fun x hx y hy => ?_⟩
  · obtain ⟨g1, g2, g3⟩ := hgs
    exact ⟨g2, g1, g3⟩
  · have hx' : x < a.w_ := e1 ▸ hx
    have hy' : y < a.h_ := e2 ▸ hy
    have h := (hc x y hx' hy').1 trivial
    rw [hnew x y hx' hy'] at h
    rw [show s.swap.image_ = s.next_ from rfl, show s.swap.w_ = s.w_ from rfl, e1,
      Nat.mul_comm y a.w_]
    exact h

/-- Two grids of the same dimensions that show the same pattern have the same
current buffer. -/
theorem alive_ext {a b : Arena} (hga : a.IsGrid) (hgb : b.IsGrid) (hw : b.w_ = a.w_)
    (hh : b.h_ = a.h_) {cells : List (Nat × Nat)} (ha : a.Alive cells) (hb : b.Alive cells) :
    b.image_ = a.image_ := by
  apply List.ext_getElem?
  intro k
  by_cases hk : k < a.w_ * a.h_
  · obtain ⟨x, y, hx, hy, rfl⟩ := idx_decomp hk
    have h1 := ha x hx y hy
    have h2 := hb x (hw ▸ hx) y (hh ▸ hy)
    rw [hw] at h2
    rw [Nat.mul_comm a.w_ y, h1, h2]
  · have h1 : a.image_.length ≤ k := by rw [hga.1]; omega
    have h2 : b.image_.length ≤ k := by rw [hgb.1, hw, hh]; omega
    rw [List.getElem?_eq_none h1, List.getElem?_eq_none h2]

/-- With a worker count that divides the width, any number of calls of
`updateMT` on a grid is the same number of calls of `update()`. -/
theorem generations_eq_updates (T : Nat) : ∀ (n : Nat) (a : Arena), a.IsGrid → T ∣ a.w_ →
    Arena.generations T n a = Arena.updates n a := by
  intro n
  induction n with
  | zero => intro a _ _; rfl
  | succ n ih =>
    intro a hg hd
    obtain ⟨a', h1, h2⟩ := hg.update_and_updateMT hd
    obtain ⟨s, hs, hw⟩ := hg.update_wrote
    have hs' : a' = s.swap := Option.some.inj (h1.symm.trans hs)
    have hg' : a'.IsGrid := by
      obtain ⟨g1, g2, g3⟩ := hw.isGrid hg
      rw [hs']
      exact ⟨g2, g1, g3⟩
    have hw' : a'.w_ = a.w_ := by rw [hs']; exact hw.1
    simp only [Arena.generations, Arena.updates, h1, h2, Option.some_bind]
    exact ih a' hg' (hw' ▸ hd)

theorem block_mem (x0 y0 x y : Nat) :
    (x, y) ∈ [(x0, y0), (x0 + 1, y0), (x0, y0 + 1), (x0 + 1, y0 + 1)] ↔
      (x0 ≤ x ∧ x ≤ x0 + 1) ∧ (y0 ≤ y ∧ y ≤ y0 + 1) := by
  simp only [List.mem_cons, Prod.mk.injEq, List.mem_singleton, List.not_mem_nil, or_false]
  omega

/-- One call of `update()` on a grid that shows a block keeps the current
buffer. -/
theorem Arena.IsGrid.block_step {a : Arena} (hg : a.IsGrid) (hW : 4 ≤ a.w_) (hH : 4 ≤ a.h_)
    {x0 y0 : Nat} (hx0 : x0 + 1 < a.w_) (hy0 : y0 + 1 < a.h_)
    (hb : a.Alive [(x0, y0), (x0 + 1, y0), (x0, y0 + 1), (x0 + 1, y0 + 1)]) :
    ∃ a', a.update = some a' ∧ a'.IsGrid ∧ a'.w_ = a.w_ ∧ a'.h_ = a.h_ ∧
      a'.Alive [(x0, y0), (x0 + 1, y0), (x0, y0 + 1), (x0 + 1, y0 + 1)] ∧
      a'.image_ = a.image_ := by
  obtain ⟨hW', hH'⟩ := hg.small (by omega) (by omega)
  have hp : ∀ x y, x < a.w_ → y < a.h_ →
      a.pix x y = inSpan x0 (x0 + 1) x * inSpan y0 (y0 + 1) y := by
    intro x y hx hy
    rw [hg.pix_of_alive hb hx hy]
    simp only [block_mem, inSpan]
    split_ifs <;> omega
  obtain ⟨a', h1, h2, h3, h4, h5⟩ := @Arena.IsGrid.update_alive a hg
    [(x0, y0), (x0 + 1, y0), (x0, y0 + 1), (x0 + 1, y0 + 1)] (by
      intro x y hx hy
      obtain ⟨n, -, hv, he⟩ := hg.rect_count hW' hH' x0 (x0 + 1) y0 (y0 + 1) hp hx hy
      rw [hv, block_cell hW hH hx0 hy0 hx hy he]
      simp only [block_mem, decide_eq_true_eq])
  exact ⟨a', h1, h2, h3, h4, h5, alive_ext hg h2 h3 h4 hb h5⟩

theorem block_updates {x0 y0 : Nat} : ∀ (n : Nat) (a : Arena), a.IsGrid → 4 ≤ a.w_ →
    4 ≤ a.h_ → x0 + 1 < a.w_ → y0 + 1 < a.h_ →
    a.Alive [(x0, y0), (x0 + 1, y0), (x0, y0 + 1), (x0 + 1, y0 + 1)] →
    ∃ a', Arena.updates n a = some a' ∧ a'.image_ = a.image_ := by
  intro n
  induction n with
  | zero => intro a _ _ _ _ _ _; exact ⟨a, rfl, rfl⟩
  | succ n ih =>
    intro a hg hW hH hx0 hy0 hb
    obtain ⟨a1, h1, h2, h3, h4, h5, h6⟩ := hg.block_step hW hH hx0 hy0 hb
    obtain ⟨a', h7, h8⟩ := ih a1 h2 (h3 ▸ hW) (h4 ▸ hH) (h3 ▸ hx0) (h4 ▸ hy0) h5
    refine ⟨a', ?_, h8.trans h6⟩
    simp only [Arena.updates, h1, Option.some_bind]
    exact h7

/-- C13: on a grid with at least four rows and four columns whose live cells
are exactly the 2 x 2 block at `(x0, y0)` (with `x0 + 1 < W`, `y0 + 1 < H`), any
number `n` of calls of `update()`, and any number `n` of calls of `updateMT`
with a worker count `T ≥ 1` that divides `W`, succeeds and leaves the current
buffer unchanged. -/
theorem block_is_still (a : Arena) (hg : a.IsGrid) (hW : 4 ≤ a.w_) (hH : 4 ≤ a.h_)
    (x0 y0 : Nat) (hx0 : x0 + 1 < a.w_) (hy0 : y0 + 1 < a.h_)
    (hb : a.Alive [(x0, y0), (x0 + 1, y0), (x0, y0 + 1), (x0 + 1, y0 + 1)]) (n : Nat) :
    (∃ a', Arena.updates n a = some a' ∧ a'.image_ = a.image_) ∧
      ∀ T, 1 ≤ T → T ∣ a.w_ →
        ∃ a', Arena.generations T n a = some a' ∧ a'.image_ = a.image_ := by
  have h := block_updates n a hg hW hH hx0 hy0 hb
  refine ⟨h, fun T _ hd => ?_⟩
  rw [generations_eq_updates T n a hg hd]
  exact h

/-- C13 at the 4 x 4 grid `block4`, for three generations. -/
theorem block_is_still_witness :
    block4.IsGrid ∧ 4 ≤ block4.w_ ∧ 4 ≤ block4.h_ ∧ 1 + 1 < block4.w_ ∧ 1 + 1 < block4.h_ ∧
      block4.Alive [(1, 1), (1 + 1, 1), (1, 1 + 1), (1 + 1, 1 + 1)] ∧
      ((∃ a', Arena.updates 3 block4 = some a' ∧ a'.image_ = block4.image_) ∧
      ∀ T, 1 ≤ T → T ∣ block4.w_ →
        ∃ a', Arena.generations T 3 block4 = some a' ∧ a'.image_ = block4.image_) :=
  ⟨by decide, by decide, by decide, by decide, by decide, by decide,
    block_is_still block4 (by decide) (by decide) (by decide) 1 1 (by decide) (by decide)
      (by decide) 3⟩

theorem bar_h_mem {c r x y : Nat} (hc : 1 ≤ c) :
    (x, y) ∈ [(c - 1, r), (c, r), (c + 1, r)] ↔ (c - 1 ≤ x ∧ x ≤ c + 1) ∧ (r ≤ y ∧ y ≤ r) := by
  simp only [List.mem_cons, Prod.mk.injEq, List.mem_singleton, List.not_mem_nil, or_false]
  omega

theorem bar_v_mem {c r x y : Nat} (hr : 1 ≤ r) :
    (x, y) ∈ [(c, r - 1), (c, r), (c, r + 1)] ↔ (c ≤ x ∧ x ≤ c) ∧ (r - 1 ≤ y ∧ y ≤ r + 1) := by
  simp only [List.mem_cons, Prod.mk.injEq, List.mem_singleton, List.not_mem_nil, or_false]
  omega

/-- One call of `update()` turns the horizontal blinker into the vertical one. -/
theorem Arena.IsGrid.blinker_h_step {a : Arena} (hg : a.IsGrid) (hW : 5 ≤ a.w_)
    (hH : 5 ≤ a.h_) {c r : Nat} (hc1 : 1 ≤ c) (hc : c + 1 < a.w_) (hr1 : 1 ≤ r)
    (hr : r + 1 < a.h_) (hb : a.Alive [(c - 1, r), (c, r), (c + 1, r)]) :
    ∃ a', a.update = some a' ∧ a'.IsGrid ∧ a'.w_ = a.w_ ∧ a'.h_ = a.h_ ∧
      a'.Alive [(c, r - 1), (c, r), (c, r + 1)] := by
  obtain ⟨hW', hH'⟩ := hg.small (by omega) (by omega)
  have hp : ∀ x y, x < a.w_ → y < a.h_ →
      a.pix x y = inSpan (c - 1) (c + 1) x * inSpan r r y := by
    intro x y hx hy
    rw [hg.pix_of_alive hb hx hy]
    simp only [bar_h_mem hc1, inSpan]
    split_ifs <;> omega
  refine @Arena.IsGrid.update_alive a hg [(c, r - 1), (c, r), (c, r + 1)] ?_
  intro x y hx hy
  obtain ⟨n, -, hv, he⟩ := hg.rect_count hW' hH' (c - 1) (c + 1) r r hp hx hy
  rw [hv, bar_cell hW (by omega) hc1 hc hr1 hr hx hy he]
  simp only [bar_v_mem hr1, decide_eq_true_eq]
  congr 1
  split_ifs <;> omega

/-- One call of `update()` turns the vertical blinker into the horizontal
one. -/
theorem Arena.IsGrid.blinker_v_step {a : Arena} (hg : a.IsGrid) (hW : 5 ≤ a.w_)
    (hH : 5 ≤ a.h_) {c r : Nat} (hc1 : 1 ≤ c) (hc : c + 1 < a.w_) (hr1 : 1 ≤ r)
    (hr : r + 1 < a.h_) (hb : a.Alive [(c, r - 1), (c, r), (c, r + 1)]) :
    ∃ a', a.update = some a' ∧ a'.IsGrid ∧ a'.w_ = a.w_ ∧ a'.h_ = a.h_ ∧
      a'.Alive [(c - 1, r), (c, r), (c + 1, r)] := by
  obtain ⟨hW', hH'⟩ := hg.small (by omega) (by omega)
  have hp : ∀ x y, x < a.w_ → y < a.h_ →
      a.pix x y = inSpan c c x * inSpan (r - 1) (r + 1) y := by
    intro x y hx hy
    rw [hg.pix_of_alive hb hx hy]
    simp only [bar_v_mem hr1, inSpan]
    split_ifs <;> omega
  refine @Arena.IsGrid.update_alive a hg [(c - 1, r), (c, r), (c + 1, r)] ?_
  intro x y hx hy
  obtain ⟨n, -, hv, he⟩ := hg.rect_count hW' hH' c c (r - 1) (r + 1) hp hx hy
  rw [Nat.mul_comm (inSpan c c x), Nat.mul_comm (spanNear a.w_ c c x)] at he
  rw [hv, Nat.mul_comm (inSpan c c x), bar_cell hH (by omega) hr1 hr hc1 hc hy hx he]
  simp only [bar_h_mem hc1, decide_eq_true_eq]
  congr 1
  split_ifs <;> omega

/-- C14: on a grid with at least five rows and five columns whose live cells
are exactly `(x-1, y)`, `(x, y)`, `(x+1, y)` for a centre with `1 ≤ x < W-1` and
`1 ≤ y < H-1`, one call of `update()` succeeds and gives a state whose live cells
are exactly `(x, y-1)`, `(x, y)`, `(x, y+1)`, and a second call gives back the
original current buffer; the same holds for `updateMT` with a worker count
`T ≥ 1` that divides `W`. -/
theorem blinker_oscillates (a : Arena) (hg : a.IsGrid) (hW : 5 ≤ a.w_) (hH : 5 ≤ a.h_)
    (x y : Nat) (hx1 : 1 ≤ x) (hx2 : x < a.w_ - 1) (hy1 : 1 ≤ y) (hy2 : y < a.h_ - 1)
    (hb : a.Alive [(x - 1, y), (x, y), (x + 1, y)]) :
    (∃ a1, a.update = some a1 ∧ a1.Alive [(x, y - 1), (x, y), (x, y + 1)] ∧
        ∃ a2, a1.update = some a2 ∧ a2.image_ = a.image_) ∧
      ∀ T, 1 ≤ T → T ∣ a.w_ →
        ∃ a1, a.updateMT T = some a1 ∧ a1.Alive [(x, y - 1), (x, y), (x, y + 1)] ∧
          ∃ a2, a1.updateMT T = some a2 ∧ a2.image_ = a.image_ := by
  have hc : x + 1 < a.w_ := by omega
  have hr : y + 1 < a.h_ := by omega
  obtain ⟨a1, h1, g1, w1, e1, b1⟩ := hg.blinker_h_step hW hH hx1 hc hy1 hr hb
  obtain ⟨a2, h2, g2, w2, e2, b2⟩ :=
    g1.blinker_v_step (w1 ▸ hW) (e1 ▸ hH) hx1 (w1 ▸ hc) hy1 (e1 ▸ hr) b1
  have himg : a2.image_ = a.image_ := alive_ext hg g2 (w2.trans w1) (e2.trans e1) hb b2
  refine ⟨⟨a1, h1, b1, a2, h2, himg⟩, fun T _ hd => ?_⟩
  obtain ⟨a1', u1, m1⟩ := hg.update_and_updateMT hd
  have ha1 : a1' = a1 := Option.some.inj (u1.symm.trans h1)
  obtain ⟨a2', u2, m2⟩ := g1.update_and_updateMT (w1 ▸ hd)
  have ha2 : a2' = a2 := Option.some.inj (u2.symm.trans h2)
  rw [ha1] at m1
  rw [ha2] at m2
  exact ⟨a1, m1, b1, a2, m2, himg⟩

/-- C14 at the 5 x 5 grid `blinker5` with the centre `(2, 2)`. -/
theorem blinker_oscillates_witness :
    blinker5.IsGrid ∧ 5 ≤ blinker5.w_ ∧ 5 ≤ blinker5.h_ ∧ 1 ≤ 2 ∧ 2 < blinker5.w_ - 1 ∧
      2 < blinker5.h_ - 1 ∧ blinker5.Alive [(2 - 1, 2), (2, 2), (2 + 1, 2)] ∧
      ((∃ a1, blinker5.update = some a1 ∧ a1.Alive [(2, 2 - 1), (2, 2), (2, 2 + 1)] ∧
        ∃ a2, a1.update = some a2 ∧ a2.image_ = blinker5.image_) ∧
      ∀ T, 1 ≤ T → T ∣ blinker5.w_ →
        ∃ a1, blinker5.updateMT T = some a1 ∧ a1.Alive [(2, 2 - 1), (2, 2), (2, 2 + 1)] ∧
          ∃ a2, a1.updateMT T = some a2 ∧ a2.image_ = blinker5.image_) :=
  ⟨by decide, by decide, by decide, by decide, by decide, by decide, by decide,
    blinker_oscillates blinker5 (by decide) (by decide) (by decide) 2 2 (by decide) (by decide)
      (by decide) (by decide) (by decide)⟩

end GameOfLife
